import Mathlib

/-!
Verification of the queue / scheduling subsystem of the GPU orchestrator
(`src/services/queue-manager.js` and the persistence wrapper it uses).

The JavaScript source is shallowly embedded: the SQLite-backed job store is a
list of rows kept in insertion (creation) order, the queue manager's methods
become pure functions from state to state, and the asynchronous dispatch /
polling callbacks are driven by explicit outcome parameters.  Logical
timestamps (`created_at`, dead-letter ids, …) are drawn from a monotone
sequence counter, modelling the uniqueness that `uuidv4()` / `Date.now()` /
`CURRENT_TIMESTAMP` provide in the source.
-/

namespace QueueSpec

/-- Job status strings used by the queue manager (`'PENDING'`, …). -/
inductive JobStatus
  | PENDING
  | RUNNING
  | IN_QUEUE
  | COMPLETED
  | FAILED
  | CANCELLED
deriving DecidableEq, Repr

/-- JSON-serializable job inputs (the `input` payload is opaque structured
data; numbers are modelled as integers, which covers the payloads of
interest). -/
inductive Json
  | null
  | bool (b : Bool)
  | num (n : Int)
  | str (s : String)
  | arr (xs : List Json)
  | obj (fields : List (String × Json))

/-- First-match association lookup: JS property access `o[k]` on an object
represented as an ordered field list. -/
def lookupField : List (String × Json) → String → Option Json
  | [], _ => none
  | (k, v) :: fs, key => if k = key then some v else lookupField fs key

theorem lookupField_sizeOf {fs : List (String × Json)} {key : String} {v : Json}
    (h : lookupField fs key = some v) : sizeOf v < sizeOf fs := by
  induction fs with
  | nil => simp [lookupField] at h
  | cons p fs ih =>
    obtain ⟨k, w⟩ := p
    by_cases hk : k = key
    · simp [lookupField, hk] at h
      subst h
      simp
      omega
    · simp [lookupField, hk] at h
      have := ih h
      simp
      omega

/-- Join strings with the `","` separator, as `JSON.stringify` does between
array items and object members. -/
def joinComma : List String → String
  | [] => ""
  | [x] => x
  | x :: xs => x ++ "," ++ joinComma xs

mutual

/-- `JSON.stringify(value, K)` with an array replacer `K`: at every object
(at every nesting depth) only the properties whose key occurs in `K` are
emitted, in the order of `K`; array elements are not filtered.  String
escaping is omitted (the payloads contain no characters needing escapes). -/
def stringifyJson (K : List String) : Json → String
  | .null => "null"
  | .bool b => if b then "true" else "false"
  | .num n => toString n
  | .str s => "\"" ++ s ++ "\""
  | .arr xs => "[" ++ joinComma (serializeItems K xs) ++ "]"
  | .obj fs => "\x7b" ++ joinComma (serializeFields K K fs) ++ "\x7d"
termination_by j => (sizeOf j, 0)
decreasing_by
  all_goals simp_wf
  all_goals first
    | (apply Prod.Lex.left; exact lookupField_sizeOf h)
    | (apply Prod.Lex.left; simp; omega)
    | (apply Prod.Lex.right; omega)
    | omega

/-- Serialize the elements of a JSON array. -/
def serializeItems (K : List String) : List Json → List String
  | [] => []
  | x :: xs => stringifyJson K x :: serializeItems K xs
termination_by xs => (sizeOf xs, 0)
decreasing_by
  all_goals simp_wf
  all_goals first
    | (apply Prod.Lex.left; exact lookupField_sizeOf h)
    | (apply Prod.Lex.left; simp; omega)
    | (apply Prod.Lex.right; omega)
    | omega

/-- Serialize an object's members: walk the replacer list `keys`, emitting
`"k":v` for each key present on the object and skipping absent keys. -/
def serializeFields (K : List String) (keys : List String)
    (fs : List (String × Json)) : List String :=
  match keys with
  | [] => []
  | k :: ks =>
    match h : lookupField fs k with
    | some v => ("\"" ++ k ++ "\":" ++ stringifyJson K v) :: serializeFields K ks fs
    | none => serializeFields K ks fs
termination_by (sizeOf fs, keys.length)
decreasing_by
  all_goals simp_wf
  all_goals first
    | (apply Prod.Lex.left; exact lookupField_sizeOf h)
    | (apply Prod.Lex.left; simp; omega)
    | (apply Prod.Lex.right; omega)
    | omega

end

/-- `Object.keys(input)`: field names of an object in insertion order,
index strings for an array, `[]` for primitives. -/
def jsKeys : Json → List String
  | .obj fs => fs.map (·.1)
  | .arr xs => (List.range xs.length).map toString
  | _ => []

/-- Insert a string into a sorted list (helper for `sortKeys`). -/
def insertSorted (s : String) : List String → List String
  | [] => [s]
  | t :: ts => if s ≤ t then s :: t :: ts else t :: insertSorted s ts

/-- `Array.prototype.sort()` on key lists: lexicographic ascending. -/
def sortKeys (l : List String) : List String := l.foldr insertSorted []

/-- The normalized serialization hashed by `hashInput`:
`JSON.stringify(input, Object.keys(input).sort())`. -/
def normalizedInput (input : Json) : String :=
  stringifyJson (sortKeys (jsKeys input)) input

/-- `hashInput`: hex digest of the normalized serialization, truncated to 16
characters.  The cryptographic digest (`sha256` hex) is a parameter: every
property proved below holds for an arbitrary digest function. -/
def hashInput (digest : String → String) (input : Json) : String :=
  (digest (normalizedInput input)).take 16

/-- Configuration consumed by the queue manager (`config/env.js`). -/
structure Config where
  maxConcurrentJobs : Nat
  rateLimitPerSecond : Nat
  maxRetryAttempts : Nat
  budgetLimitDaily : ℚ

/-- A row of the `jobs` table.  `id` abstracts the `uuidv4()` string as the
creation sequence number (uuid collisions do not occur); `created_at` is the
same logical timestamp.  Columns never read by the queue manager
(`gpu_used`, `cost_usd`, `duration_ms`) are omitted. -/
structure JobRow where
  id : Nat
  runpod_job_id : Option String
  endpoint_id : Option String
  status : JobStatus
  input_hash : String
  input : Json
  output : Option Json
  attempts : Nat
  error : Option String
  created_at : Nat
  started_at : Option Nat
  completed_at : Option Nat

/-- A row of the `dead_letter_queue` table; `job_data` is the
`JSON.stringify`/`JSON.parse` round trip of a job-row object (so its keys
are the `jobs` column names).  Note that the program itself can never
complete an insert into this table — `addToDeadLetter` binds the undefined
`job.endpointId` and better-sqlite3 throws — so rows of this shape exist
only if put there outside the program; the type is still needed to specify
`retryDeadLetter` against an arbitrary store. -/
structure DeadLetterRow where
  id : Nat
  original_job_id : Nat
  endpoint_id : Option String
  job_data : JobRow
  error : String
  attempts : Nat
  created_at : Nat

/-- An entry of the in-memory `activeJobs` map. -/
structure ActiveInfo where
  runpodJobId : String
  endpointId : Option String
  startTime : Nat

/-- Events broadcast over the WebSocket notification channel. -/
inductive Event
  | jobCreated (id : Nat)
  | jobRunning (id : Nat)
  | jobQueued (id : Nat) (runpodJobId : String)
  | jobRetry (id : Nat) (attempt : Nat)
  | jobFailed (id : Nat) (error : String) (deadLettered : Bool)
  | jobCompleted (id : Nat)
  | jobCancelled (id : Nat)

/-- Errors thrown by the public operations.  `budgetExceeded` carries the
configured daily limit and the current spend, the two figures interpolated
into the thrown message string.  `bindTypeError` is the TypeError
better-sqlite3 throws when a bound parameter is JS `undefined` (only
`null`, numbers, strings, bigints and buffers bind); `remoteCancelError`
is a failure thrown by the awaited `serverlessClient.cancelJob` call. -/
inductive QErr
  | budgetExceeded (limit spend : ℚ)
  | jobNotFound
  | dlqNotFound
  | bindTypeError
  | remoteCancelError (msg : String)

/-- Successful results of `submitJob`: either the spread of an existing row
annotated `deduplicated: true`, or the `{id, status: 'PENDING'}` of a newly
created job. -/
inductive SubmitOk
  | deduplicated (existing : JobRow)
  | created (id : Nat) (status : JobStatus)

/-- Result of one awaited `serverlessClient.runJob` dispatch call. -/
inductive DispatchOutcome
  | ok (runpodJobId : String)
  | err (msg : String)

/-- Result of the awaited `serverlessClient.cancelJob` call inside
`cancelJob` (the source has no try/catch around it, so a failure aborts
the cancellation before anything is persisted). -/
inductive CancelOutcome
  | ok
  | err (msg : String)

/-- Status reported by `serverlessClient.getJobStatus` during one polling
pass (`pollError` is a thrown network error, which is only logged). -/
inductive PollReport
  | completed (output : Json)
  | failed (error : Option String)
  | inProgress
  | pollError

/-- The whole observable state: the database tables the queue touches, the
in-memory active-jobs map, the broadcast log, and the logical clock.
`todaySpend` is today's aggregate of the `cost_log` ledger (written by the
pod-cost tracker, outside this subsystem; it may change arbitrarily between
operations). -/
structure SysState where
  jobs : List JobRow
  deadLetters : List DeadLetterRow
  todaySpend : ℚ
  activeJobs : List (Nat × ActiveInfo)
  events : List Event
  nextSeq : Nat

/-- JS property read `snapshot[key]` for the string-valued columns of a
parsed job-row snapshot.  The snapshot's keys are exactly the `jobs` table
column names (`id`, `runpod_job_id`, `endpoint_id`, `status`, `input_hash`,
`input`, `output`, `attempts`, `error`, `created_at`, `started_at`,
`completed_at`); reading any other key — in particular the camelCase
`"endpointId"` — yields JS `undefined`, modelled as `none`. -/
def snapshotStringField (r : JobRow) (key : String) : Option String :=
  if key = "runpod_job_id" then r.runpod_job_id
  else if key = "endpoint_id" then r.endpoint_id
  else if key = "input_hash" then some r.input_hash
  else if key = "error" then r.error
  else none

/-- The statuses matched by `getJobByHash`'s
`status IN ('COMPLETED', 'RUNNING', 'PENDING', 'IN_QUEUE')`. -/
def isDedupStatus : JobStatus → Bool
  | .COMPLETED | .RUNNING | .PENDING | .IN_QUEUE => true
  | _ => false

/-- Non-terminal statuses (`PENDING`, `RUNNING`, `IN_QUEUE`). -/
def isNonTerminal : JobStatus → Bool
  | .PENDING | .RUNNING | .IN_QUEUE => true
  | _ => false

/-- Insert a row into a list sorted by `created_at` ascending. -/
def insertByCreated (j : JobRow) : List JobRow → List JobRow
  | [] => [j]
  | k :: ks =>
    if j.created_at ≤ k.created_at then j :: k :: ks else k :: insertByCreated j ks

/-- `ORDER BY created_at ASC`. -/
def sortByCreated (l : List JobRow) : List JobRow := l.foldr insertByCreated []

/-- Rows matching `input_hash = ? AND status IN ('COMPLETED', 'RUNNING',
'PENDING', 'IN_QUEUE')`. -/
def dedupFilter (jobs : List JobRow) (h : String) : List JobRow :=
  jobs.filter (fun j => decide (j.input_hash = h) && isDedupStatus j.status)

/-- `database.getJobByHash`: the matching row with the greatest
`created_at` (`ORDER BY created_at DESC LIMIT 1`). -/
def getJobByHash (jobs : List JobRow) (h : String) : Option JobRow :=
  (sortByCreated (dedupFilter jobs h)).getLast?

/-- `database.getPendingJobs(limit)`: `PENDING` rows ordered by `created_at`
ascending, `LIMIT ?`.  SQLite treats a negative `LIMIT` as "no limit", so
the bound is only applied when `limit ≥ 0`. -/
def getPendingJobs (jobs : List JobRow) (limit : Int) : List JobRow :=
  let rows := sortByCreated (jobs.filter (fun j => decide (j.status = .PENDING)))
  if limit < 0 then rows else rows.take limit.toNat

/-- `database.updateJob`: `UPDATE jobs SET … WHERE id = ?` applied as a row
transformer on every row with the given id. -/
def updateRows (jobs : List JobRow) (jid : Nat) (f : JobRow → JobRow) : List JobRow :=
  jobs.map (fun j => if j.id = jid then f j else j)

/-- `Map.prototype.set`: replace the entry if the key exists, else append. -/
def mapSet (m : List (Nat × ActiveInfo)) (k : Nat) (v : ActiveInfo) :
    List (Nat × ActiveInfo) :=
  if m.any (fun p => p.1 == k) then m.map (fun p => if p.1 = k then (k, v) else p)
  else m ++ [(k, v)]

/-- `Map.prototype.delete`. -/
def mapDelete (m : List (Nat × ActiveInfo)) (k : Nat) : List (Nat × ActiveInfo) :=
  m.filter (fun p => p.1 != k)

/-- The row inserted by `database.createJob`: status `'PENDING'`, zero
attempts, `created_at` from the clock. -/
def newRow (s : SysState) (endpointId : Option String) (inputHash : String)
    (input : Json) : JobRow :=
  { id := s.nextSeq, runpod_job_id := none, endpoint_id := endpointId,
    status := .PENDING, input_hash := inputHash, input := input,
    output := none, attempts := 0, error := none, created_at := s.nextSeq,
    started_at := none, completed_at := none }

/-- `submitJob(endpointId, input, options)`.  `hashFn` abstracts
`this.hashInput` (instantiated with `hashInput digest`); `endpointId` is
`Option String`, with `none` standing for JS `undefined` (what the
dead-letter retry path passes).  `database.createJob` binds
`job.endpointId`, and better-sqlite3 rejects an `undefined` bind value
with a TypeError — so on the `none` path no row is created and the error
propagates to the caller.  Returns the thrown error or the result object,
paired with the new state. -/
def submitJob (hashFn : Json → String) (cfg : Config) (s : SysState)
    (endpointId : Option String) (input : Json) (skipDeduplication : Bool) :
    Except QErr SubmitOk × SysState :=
  let inputHash := hashFn input
  match if skipDeduplication then none else getJobByHash s.jobs inputHash with
  | some existing => (.ok (.deduplicated existing), s)
  | none =>
    if cfg.budgetLimitDaily ≤ s.todaySpend then
      (.error (.budgetExceeded cfg.budgetLimitDaily s.todaySpend), s)
    else
      match endpointId with
      | none => (.error .bindTypeError, s)
      | some _ =>
        (.ok (.created s.nextSeq .PENDING),
         { s with jobs := s.jobs ++ [newRow s endpointId inputHash input],
                  events := s.events ++ [.jobCreated s.nextSeq],
                  nextSeq := s.nextSeq + 1 })

/-- `processJob(job)` driven by the dispatch call's outcome.  `job` is the
stale row object fetched by `getPendingJobs` (the source updates the
database but never this local object).  The rate-limit token acquisition
between the `RUNNING` update and the dispatch only delays the call; the
token bucket itself is modelled separately below. -/
def processJob (cfg : Config) (s : SysState) (job : JobRow)
    (outcome : DispatchOutcome) : SysState :=
  let now := s.nextSeq
  let s1 : SysState :=
    { s with
      jobs := updateRows s.jobs job.id (fun j =>
        { j with status := .RUNNING, started_at := some now,
                 attempts := job.attempts + 1 }),
      events := s.events ++ [.jobRunning job.id] }
  match outcome with
  | .ok rid =>
    { s1 with
      jobs := updateRows s1.jobs job.id (fun j =>
        { j with runpod_job_id := some rid, status := .IN_QUEUE }),
      events := s1.events ++ [.jobQueued job.id rid],
      activeJobs := mapSet s1.activeJobs job.id ⟨rid, job.endpoint_id, now⟩ }
  | .err msg =>
    let attempts := job.attempts + 1
    if cfg.maxRetryAttempts ≤ attempts then
      -- `updateJob(job.id, {status: FAILED, error, attempts})` succeeds; the
      -- following `addToDeadLetter(job, …)` binds `job.endpointId`, which is
      -- `undefined` on a row object (rows carry `endpoint_id`), so
      -- better-sqlite3 throws a TypeError: no dead-letter row is inserted,
      -- the `job:failed` broadcast is never reached, and the rejection is
      -- absorbed by the loop's `Promise.allSettled`.
      { s1 with
        jobs := updateRows s1.jobs job.id (fun j =>
          { j with status := .FAILED, error := some msg, attempts := attempts }) }
    else
      { s1 with
        jobs := updateRows s1.jobs job.id (fun j =>
          { j with status := .PENDING, error := some msg, attempts := attempts }),
        events := s1.events ++ [.jobRetry job.id attempts] }

/-- One step of `pollActiveJobs` for one active entry, given the status the
serverless client reported for it. -/
def pollOne (s : SysState) (jobId : Nat) (r : PollReport) : SysState :=
  match r with
  | .completed output =>
    { s with
      jobs := updateRows s.jobs jobId (fun j =>
        { j with status := .COMPLETED, output := some output,
                 completed_at := some s.nextSeq }),
      activeJobs := mapDelete s.activeJobs jobId,
      events := s.events ++ [.jobCompleted jobId] }
  | .failed err =>
    { s with
      jobs := updateRows s.jobs jobId (fun j =>
        { j with status := .FAILED, error := some (err.getD "Job failed"),
                 completed_at := some s.nextSeq }),
      activeJobs := mapDelete s.activeJobs jobId,
      events := s.events ++ [.jobFailed jobId (err.getD "Job failed") false] }
  | .inProgress => s
  | .pollError => s

/-- `pollActiveJobs`: iterate over the active entries captured at the start
of the pass.  In-progress and errored polls leave the entry for the next
tick. -/
def pollActiveJobs (s : SysState) (reports : Nat → PollReport) : SysState :=
  s.activeJobs.foldl (fun st e => pollOne st e.1 (reports e.1)) s

/-- The `getPendingJobs` call of one tick of the processing loop:
`database.getPendingJobs(config.maxConcurrentJobs - this.activeJobs.size)`
(the subtraction is on JS numbers, hence over `Int`). -/
def tickFetch (cfg : Config) (s : SysState) : List JobRow :=
  getPendingJobs s.jobs
    ((cfg.maxConcurrentJobs : Int) - (s.activeJobs.length : Int))

/-- One tick of the processing loop: fetch pending jobs, process each
(dispatch outcomes given per job id), then run one polling pass.  The
re-entrancy guard makes ticks sequential, so a tick is one big step. -/
def tick (cfg : Config) (s : SysState) (outcomes : Nat → DispatchOutcome)
    (reports : Nat → PollReport) : SysState :=
  let fetched := tickFetch cfg s
  let s1 := fetched.foldl (fun st j => processJob cfg st j (outcomes j.id)) s
  pollActiveJobs s1 reports

/-- `cancelJob(jobId)` driven by the outcome of the awaited
`serverlessClient.cancelJob` call.  When the job has a remote handle and an
active entry, the remote call is made with no try/catch: if it throws, the
error propagates before `activeJobs.delete`, before the `CANCELLED` update
and before the broadcast, leaving the state untouched.  The remote call is
not made at all when the job has no handle or no active entry, so `remote`
is irrelevant there. -/
def cancelJob (s : SysState) (jobId : Nat) (remote : CancelOutcome) :
    Except QErr Unit × SysState :=
  match s.jobs.find? (fun j => j.id == jobId) with
  | none => (.error .jobNotFound, s)
  | some job =>
    if job.runpod_job_id.isSome && s.activeJobs.any (fun p => p.1 == jobId) then
      match remote with
      | .err msg => (.error (.remoteCancelError msg), s)
      | .ok =>
        (.ok (),
         { s with activeJobs := mapDelete s.activeJobs jobId,
                  jobs := updateRows s.jobs jobId
                    (fun j => { j with status := .CANCELLED }),
                  events := s.events ++ [.jobCancelled jobId] })
    else
      (.ok (),
       { s with jobs := updateRows s.jobs jobId
                  (fun j => { j with status := .CANCELLED }),
                events := s.events ++ [.jobCancelled jobId] })

/-- `retryDeadLetter(dlqId)`: find the record in `getDeadLetterJobs()`
(`ORDER BY created_at DESC`), then re-submit reading `jobData.endpointId`
and `jobData.input` off the parsed snapshot, with `skipDeduplication:
true`. -/
def retryDeadLetter (hashFn : Json → String) (cfg : Config) (s : SysState)
    (dlqId : Nat) : Except QErr SubmitOk × SysState :=
  match s.deadLetters.reverse.find? (fun d => d.id == dlqId) with
  | none => (.error .dlqNotFound, s)
  | some dlq =>
    submitJob hashFn cfg s (snapshotStringField dlq.job_data "endpointId")
      dlq.job_data.input true

/-- The state at process start: empty tables, empty active map. -/
def initState : SysState :=
  { jobs := [], deadLetters := [], todaySpend := 0, activeJobs := [],
    events := [], nextSeq := 0 }

/-- States reachable by any sequence of the public operations: submissions
(with either deduplication setting), loop ticks, cancellations, dead-letter
retries, and external changes of the day's spend. -/
inductive Reach (hashFn : Json → String) (cfg : Config) : SysState → Prop
  | init : Reach hashFn cfg initState
  | submit {s} (endpointId : Option String) (input : Json) (skip : Bool) :
      Reach hashFn cfg s → Reach hashFn cfg (submitJob hashFn cfg s endpointId input skip).2
  | tickStep {s} (outcomes : Nat → DispatchOutcome) (reports : Nat → PollReport) :
      Reach hashFn cfg s → Reach hashFn cfg (tick cfg s outcomes reports)
  | cancel {s} (jobId : Nat) (o : CancelOutcome) :
      Reach hashFn cfg s → Reach hashFn cfg (cancelJob s jobId o).2
  | retryDLQ {s} (dlqId : Nat) :
      Reach hashFn cfg s → Reach hashFn cfg (retryDeadLetter hashFn cfg s dlqId).2
  | spend {s} (q : ℚ) :
      Reach hashFn cfg s → Reach hashFn cfg { s with todaySpend := q }

/-- States reachable without a direct deduplication bypass: submissions
always with `skipDeduplication: false`, plus ticks, polling, cancellation,
dead-letter retry and spend changes.  (`retryDeadLetter` is included: its
internal skip-dedup resubmission always throws on the undefined
`endpointId` bind before creating a row, so it never changes the store.) -/
inductive ReachND (hashFn : Json → String) (cfg : Config) : SysState → Prop
  | init : ReachND hashFn cfg initState
  | submit {s} (endpointId : Option String) (input : Json) :
      ReachND hashFn cfg s →
      ReachND hashFn cfg (submitJob hashFn cfg s endpointId input false).2
  | tickStep {s} (outcomes : Nat → DispatchOutcome) (reports : Nat → PollReport) :
      ReachND hashFn cfg s → ReachND hashFn cfg (tick cfg s outcomes reports)
  | cancel {s} (jobId : Nat) (o : CancelOutcome) :
      ReachND hashFn cfg s → ReachND hashFn cfg (cancelJob s jobId o).2
  | retryDLQ {s} (dlqId : Nat) :
      ReachND hashFn cfg s →
      ReachND hashFn cfg (retryDeadLetter hashFn cfg s dlqId).2
  | spend {s} (q : ℚ) :
      ReachND hashFn cfg s → ReachND hashFn cfg { s with todaySpend := q }

/-- Number of rows with the given input hash in a non-terminal status. -/
def hashNonTerminalCount (jobs : List JobRow) (h : String) : Nat :=
  (jobs.filter (fun j => decide (j.input_hash = h) && isNonTerminal j.status)).length

/-- The deduplication invariant of §3 of the spec: at most one job per
distinct `inputHash` in a non-terminal status. -/
def DedupInvariant (s : SysState) : Prop :=
  ∀ h : String, hashNonTerminalCount s.jobs h ≤ 1

/-- Rows are stored in creation order with strictly increasing logical
timestamps, ids coincide with timestamps, and all are below the clock. -/
def RowsWF (s : SysState) : Prop :=
  List.Pairwise (fun a b => a.created_at < b.created_at) s.jobs
    ∧ ∀ j ∈ s.jobs, j.id = j.created_at ∧ j.created_at < s.nextSeq

/-- Structural well-formedness of reachable states: ordered rows and an
active-jobs map never larger than the concurrency cap. -/
def WF (cfg : Config) (s : SysState) : Prop :=
  RowsWF s ∧ s.activeJobs.length ≤ cfg.maxConcurrentJobs

/-- The decrement step of `acquireRateLimitToken`: the busy-wait loop
(`while tokens < 1 await sleep`) leaves the counter untouched until it is at
least 1, and then `this.rateLimitTokens--` runs. -/
def acquireRateLimitToken (tokens : Int) : Int :=
  if 1 ≤ tokens then tokens - 1 else tokens

/-- One firing of the refill interval:
`tokens = Math.min(rateLimitPerSecond, tokens + rateLimitPerSecond)`. -/
def refillTokens (n : Nat) (tokens : Int) : Int :=
  min (n : Int) (tokens + n)

/-- The two operations mutating the shared token counter. -/
inductive TokenOp
  | acquire
  | refill

/-- Apply one token-counter operation. -/
def tokenStep (n : Nat) (t : Int) : TokenOp → Int
  | .acquire => acquireRateLimitToken t
  | .refill => refillTokens n t

/-- Run an arbitrary interleaving of acquisitions and refills from the
initial counter `this.rateLimitTokens = config.rateLimitPerSecond`. -/
def runTokenOps (n : Nat) (ops : List TokenOp) : Int :=
  ops.foldl (tokenStep n) (n : Int)

/-- `getBackoffDelay(attempts)`; the `Math.random() * 1000` jitter is the
parameter `jitter`. -/
def getBackoffDelay (attempts : Nat) (jitter : ℚ) : ℚ :=
  min ((1000 : ℚ) * 2 ^ attempts) 32000 + jitter

/-- A concrete job row and states used to instantiate the theorems with
hypotheses. -/
def wRow : JobRow :=
  { id := 0, runpod_job_id := none, endpoint_id := some "ep1",
    status := .PENDING, input_hash := "h", input := .num 1, output := none,
    attempts := 0, error := none, created_at := 0, started_at := none,
    completed_at := none }

/-- A state holding exactly the one pending row `wRow`. -/
def wState : SysState :=
  { jobs := [wRow], deadLetters := [], todaySpend := 0, activeJobs := [],
    events := [], nextSeq := 1 }

/-- A concrete configuration. -/
def cfgA : Config :=
  { maxConcurrentJobs := 3, rateLimitPerSecond := 5, maxRetryAttempts := 3,
    budgetLimitDaily := 100 }

/-- The row of `wState` after two failed attempts (out of
`cfgA.maxRetryAttempts = 3`). -/
def wRow2 : JobRow := { wRow with attempts := 2 }

/-- A state holding exactly the twice-failed pending row. -/
def wState2 : SysState := { wState with jobs := [wRow2] }

/-- A state whose daily spend already equals the limit of `cfgA`. -/
def wStateSpent : SysState := { initState with todaySpend := 100 }

/-- A constant stand-in for `hashInput`: all the submissions in the runs
below use the same input, so any hash function gives them the same hash. -/
def cexHash : Json → String := fun _ => "h"

/-- The run violating the claimed invariant: submit an input, then submit
the same input again with `skipDeduplication: true` (the `options` object
is passed through verbatim from the request body by the HTTP layer, so
this is a sequence of public operations).  The second submission skips the
duplicate lookup and creates a second `PENDING` row with the same hash. -/
def cexSkip : SysState :=
  (submitJob cexHash cfgA
    (submitJob cexHash cfgA initState (some "ep1") (Json.num 1) false).2
    (some "ep1") (Json.num 1) true).2

/-- A hypothetical dead-letter record (the program itself can never insert
one): the snapshot of a pending row originally submitted to `"ep1"`. -/
def hypDLQRow : DeadLetterRow :=
  { id := 1, original_job_id := 0, endpoint_id := none, job_data := wRow,
    error := "boom", attempts := 0, created_at := 1 }

/-- A store holding the hypothetical dead-letter record, to evaluate
`retryDeadLetter` on a present record. -/
def hypDLQState : SysState :=
  { initState with deadLetters := [hypDLQRow], nextSeq := 2 }

/-- Nested input whose inner value is `1`: `\x7b"a":\x7b"b":1\x7d\x7d`. -/
def inputA : Json := .obj [("a", .obj [("b", .num 1)])]

/-- Nested input whose inner value is `2`: `\x7b"a":\x7b"b":2\x7d\x7d`. -/
def inputB : Json := .obj [("a", .obj [("b", .num 2)])]

theorem tokenStep_bounds (n : Nat) (t : Int) (op : TokenOp)
    (h0 : 0 ≤ t) (h1 : t ≤ n) : 0 ≤ tokenStep n t op ∧ tokenStep n t op ≤ n := by
  cases op with
  | acquire =>
    simp only [tokenStep, acquireRateLimitToken]
    split <;> omega
  | refill =>
    simp only [tokenStep, refillTokens]
    constructor
    · exact le_min (Int.ofNat_nonneg n) (by omega)
    · exact min_le_left _ _

theorem runTokenOps_go (n : Nat) (ops : List TokenOp) (t : Int)
    (h0 : 0 ≤ t) (h1 : t ≤ n) :
    0 ≤ ops.foldl (tokenStep n) t ∧ ops.foldl (tokenStep n) t ≤ n := by
  induction ops generalizing t with
  | nil => exact ⟨h0, h1⟩
  | cons op ops ih =>
    obtain ⟨g0, g1⟩ := tokenStep_bounds n t op h0 h1
    simpa using ih (tokenStep n t op) g0 g1

/-- C5: the rate-limit counter stays within `[0, N]` under every
interleaving of acquisitions and refills; an acquisition decrements by
exactly one when the counter is at least 1 and otherwise (busy-waiting)
leaves it unchanged; and a refill from any valid counter value resets it to
exactly `N`, never above. -/
theorem rateLimit_counter_invariant (n : Nat) :
    (∀ ops : List TokenOp, 0 ≤ runTokenOps n ops ∧ runTokenOps n ops ≤ n)
    ∧ (∀ t : Int, 1 ≤ t → acquireRateLimitToken t = t - 1)
    ∧ (∀ t : Int, t < 1 → acquireRateLimitToken t = t)
    ∧ (∀ t : Int, 0 ≤ t → refillTokens n t = n) := by
  refine ⟨fun ops => runTokenOps_go n ops n (Int.ofNat_nonneg n) le_rfl, ?_, ?_, ?_⟩
  · intro t ht; simp [acquireRateLimitToken, ht]
  · intro t ht; simp [acquireRateLimitToken]; omega
  · intro t ht
    have : (n : Int) ≤ t + n := by omega
    simp [refillTokens, min_eq_left this]

/-- Witness for C5 at `N = 2`: a concrete interleaving stays in bounds, and
the acquire/refill equations hold at concrete counter values. -/
theorem rateLimit_counter_invariant_witness :
    (0 ≤ runTokenOps 2 [TokenOp.acquire, TokenOp.acquire, TokenOp.refill, TokenOp.acquire]
      ∧ runTokenOps 2 [TokenOp.acquire, TokenOp.acquire, TokenOp.refill, TokenOp.acquire] ≤ 2)
    ∧ acquireRateLimitToken 2 = 1
    ∧ acquireRateLimitToken 0 = 0
    ∧ refillTokens 2 1 = 2 :=
  ⟨(rateLimit_counter_invariant 2).1 [TokenOp.acquire, TokenOp.acquire, TokenOp.refill, TokenOp.acquire],
   by
    have h := (rateLimit_counter_invariant 2).2.1 2 (by decide)
    simpa using h,
   by
    have h := (rateLimit_counter_invariant 2).2.2.1 0 (by decide)
    simpa using h,
   by
    have h := (rateLimit_counter_invariant 2).2.2.2 1 (by decide)
    simpa using h⟩

/-- C9: for `attempts ≤ 5` the deterministic component of the backoff is
`min(1000·2^attempts, 32000) = 1000·2^attempts`, it is non-decreasing in
the attempt count, and with jitter in `[0, 1000)` the returned delay lies
in `[1000·2^attempts, 1000·2^attempts + 1000)`; at the cap (`attempts = 5`)
this is `[32000, 33000)`. -/
theorem backoffDelay_bounds (a : Nat) (j : ℚ) (ha : a ≤ 5) (h0 : 0 ≤ j)
    (h1 : j < 1000) :
    (1000 : ℚ) * 2 ^ a ≤ getBackoffDelay a j
    ∧ getBackoffDelay a j < 1000 * 2 ^ a + 1000
    ∧ (∀ b : Nat, b ≤ a →
        min ((1000 : ℚ) * 2 ^ b) 32000 ≤ min ((1000 : ℚ) * 2 ^ a) 32000)
    ∧ (a = 5 → (32000 : ℚ) ≤ getBackoffDelay a j ∧ getBackoffDelay a j < 33000) := by
  have hpow : (2 : ℚ) ^ a ≤ 2 ^ 5 :=
    pow_le_pow_right (by norm_num) ha
  have hcap : (1000 : ℚ) * 2 ^ a ≤ 32000 := by
    calc (1000 : ℚ) * 2 ^ a ≤ 1000 * 2 ^ 5 := by nlinarith
    _ = 32000 := by norm_num
  have hmin : min ((1000 : ℚ) * 2 ^ a) 32000 = 1000 * 2 ^ a := min_eq_left hcap
  refine ⟨?_, ?_, ?_, ?_⟩
  · simp only [getBackoffDelay, hmin]; linarith
  · simp only [getBackoffDelay, hmin]; linarith
  · intro b hb
    exact min_le_min (by
      have : (2 : ℚ) ^ b ≤ 2 ^ a := pow_le_pow_right (by norm_num) hb
      nlinarith) le_rfl
  · intro h5
    subst h5
    simp only [getBackoffDelay, hmin]
    norm_num
    constructor <;> linarith

theorem insertByCreated_eq_cons {a : JobRow} {t : List JobRow}
    (h : ∀ b ∈ t, a.created_at ≤ b.created_at) : insertByCreated a t = a :: t := by
  cases t with
  | nil => rfl
  | cons b bs => simp [insertByCreated, h b (by simp)]

theorem sortByCreated_of_sorted {l : List JobRow}
    (h : List.Pairwise (fun a b => a.created_at < b.created_at) l) :
    sortByCreated l = l := by
  induction l with
  | nil => rfl
  | cons a t ih =>
    obtain ⟨hhead, htail⟩ := List.pairwise_cons.mp h
    have : sortByCreated (a :: t) = insertByCreated a (sortByCreated t) := rfl
    rw [this, ih htail, insertByCreated_eq_cons (fun b hb => le_of_lt (hhead b hb))]

theorem sorted_getLast?_max {l : List JobRow}
    (hs : List.Pairwise (fun a b => a.created_at < b.created_at) l)
    {m : JobRow} (hm : l.getLast? = some m) :
    ∀ a ∈ l, a.created_at ≤ m.created_at := by
  induction l with
  | nil => simp at hm
  | cons x t ih =>
    cases t with
    | nil =>
      rw [List.getLast?_singleton] at hm
      obtain rfl : x = m := by simpa using hm
      intro a ha
      obtain rfl : a = x := by simpa using ha
      exact le_rfl
    | cons y u =>
      rw [List.getLast?_cons_cons] at hm
      obtain ⟨hhead, htail⟩ := List.pairwise_cons.mp hs
      have hmem : m ∈ y :: u := by
        obtain ⟨hne, heq⟩ := List.mem_getLast?_eq_getLast (Option.mem_def.mpr hm)
        exact heq ▸ List.getLast_mem hne
      intro a ha
      rcases List.mem_cons.mp ha with rfl | ha'
      · exact le_of_lt (hhead m hmem)
      · exact ih htail hm a ha'

/-- C1: when a row with the submitted input's hash exists in a status among
`COMPLETED, RUNNING, PENDING, IN_QUEUE`, `submitJob` without
`skipDeduplication` returns that row — the most recently created such row —
annotated `deduplicated: true`, and the state (job rows, dead letters,
active map, broadcast log) is completely unchanged: no row is created and
no dispatch occurs. -/
theorem submitJob_dedup_hit (hashFn : Json → String) (cfg : Config)
    (s : SysState) (endpointId : Option String) (input : Json)
    (hs : List.Pairwise (fun a b => a.created_at < b.created_at) s.jobs)
    (hex : ∃ j ∈ s.jobs, j.input_hash = hashFn input ∧ isDedupStatus j.status = true) :
    ∃ m, submitJob hashFn cfg s endpointId input false = (.ok (.deduplicated m), s)
      ∧ m ∈ s.jobs ∧ m.input_hash = hashFn input ∧ isDedupStatus m.status = true
      ∧ ∀ j ∈ s.jobs, j.input_hash = hashFn input → isDedupStatus j.status = true →
          j.created_at ≤ m.created_at := by
  obtain ⟨j0, hj0mem, hj0h, hj0st⟩ := hex
  have hfsorted : List.Pairwise (fun a b => a.created_at < b.created_at)
      (dedupFilter s.jobs (hashFn input)) :=
    List.Pairwise.filter _ hs
  have hj0f : j0 ∈ dedupFilter s.jobs (hashFn input) := by
    simp [dedupFilter, List.mem_filter, hj0mem, hj0h, hj0st]
  have hne : dedupFilter s.jobs (hashFn input) ≠ [] := List.ne_nil_of_mem hj0f
  have hlast : getJobByHash s.jobs (hashFn input) =
      some ((dedupFilter s.jobs (hashFn input)).getLast hne) := by
    rw [getJobByHash, sortByCreated_of_sorted hfsorted]
    exact List.getLast?_eq_getLast_of_ne_nil hne
  set m := (dedupFilter s.jobs (hashFn input)).getLast hne with hmdef
  have hmmemf : m ∈ dedupFilter s.jobs (hashFn input) := List.getLast_mem hne
  have hmprops := List.mem_filter.mp hmmemf
  have hmm : m ∈ s.jobs := hmprops.1
  have hmh : m.input_hash = hashFn input := by
    have := hmprops.2
    simp at this
    exact this.1
  have hmst : isDedupStatus m.status = true := by
    have := hmprops.2
    simp at this
    exact this.2
  refine ⟨m, ?_, hmm, hmh, hmst, ?_⟩
  · simp only [submitJob]
    rw [show (if false then none else getJobByHash s.jobs (hashFn input)) =
          getJobByHash s.jobs (hashFn input) from rfl, hlast]
  · intro j hj hjh hjst
    have hjf : j ∈ dedupFilter s.jobs (hashFn input) := by
      simp [dedupFilter, List.mem_filter, hj, hjh, hjst]
    have := sorted_getLast?_max hfsorted
      (List.getLast?_eq_getLast_of_ne_nil hne) j hjf
    exact this




/-- Witness for C1: resubmitting the input whose hash is already pending in
`wState` returns the existing row and leaves the state unchanged. -/
theorem submitJob_dedup_hit_witness :
    ∃ m, submitJob (fun _ => "h") cfgA wState (some "ep2") (Json.num 1) false =
        (.ok (.deduplicated m), wState)
      ∧ m ∈ wState.jobs ∧ m.input_hash = (fun _ => "h") (Json.num 1)
      ∧ isDedupStatus m.status = true
      ∧ ∀ j ∈ wState.jobs, j.input_hash = (fun _ => "h") (Json.num 1) →
          isDedupStatus j.status = true → j.created_at ≤ m.created_at :=
  submitJob_dedup_hit (fun _ => "h") cfgA wState (some "ep2") (Json.num 1)
    (by simp [wState]) ⟨wRow, by simp [wState], rfl, rfl⟩

/-- C3: a submission that is not resolved as a duplicate, made while
today's spend is at or above the configured daily budget limit, throws the
budget-exceeded error carrying the limit and the current spend, and the
state is completely unchanged: no job row is created and no `job:created`
event is broadcast. -/
theorem submitJob_budget_gate (hashFn : Json → String) (cfg : Config)
    (s : SysState) (endpointId : Option String) (input : Json) (skip : Bool)
    (hnodup : skip = true ∨ getJobByHash s.jobs (hashFn input) = none)
    (hspend : cfg.budgetLimitDaily ≤ s.todaySpend) :
    submitJob hashFn cfg s endpointId input skip =
      (.error (.budgetExceeded cfg.budgetLimitDaily s.todaySpend), s) := by
  rcases hnodup with rfl | hmatch
  · simp [submitJob, hspend]
  · cases skip
    · simp [submitJob, hmatch, hspend]
    · simp [submitJob, hspend]

/-- C2: evaluation at the failing input — the third consecutive dispatch
failure of a job under `maxRetryAttempts = 3`.  The job's row is persisted
`FAILED` with the final error and `attempts = maxRetryAttempts`, exactly as
claimed; but NO dead-letter record is appended and NO `job:failed`
broadcast is sent (the store still only has the `job:running` event): the
source's `addToDeadLetter` binds the undefined `job.endpointId` and
better-sqlite3 throws a TypeError before the insert completes. -/
theorem processJob_deadletter_bind_error :
    ((processJob cfgA wState2 wRow2 (.err "dispatch failed")).jobs.map
        (fun j => (j.status, j.attempts, j.error))) =
      [(JobStatus.FAILED, 3, some "dispatch failed")]
    ∧ cfgA.maxRetryAttempts = 3
    ∧ (processJob cfgA wState2 wRow2 (.err "dispatch failed")).deadLetters = []
    ∧ (processJob cfgA wState2 wRow2 (.err "dispatch failed")).events =
        [Event.jobRunning 0] :=
  ⟨rfl, rfl, rfl, rfl⟩


/-- Witness for C3: submitting into an empty store with spend at the limit
fails with the budget error and changes nothing. -/
theorem submitJob_budget_gate_witness :
    submitJob (fun _ => "h") cfgA wStateSpent (some "ep1") (Json.num 1) false =
      (.error (.budgetExceeded cfgA.budgetLimitDaily wStateSpent.todaySpend),
       wStateSpent) :=
  submitJob_budget_gate (fun _ => "h") cfgA wStateSpent (some "ep1") (Json.num 1)
    false (Or.inr rfl) (by norm_num [cfgA, wStateSpent, initState])

theorem updateRows_id_match {jobs : List JobRow} {jid : Nat}
    {f : JobRow → JobRow} (hf : ∀ j, (f j).id = j.id) {j : JobRow}
    (hj : j ∈ updateRows jobs jid f) (hid : j.id = jid) :
    ∃ j0 ∈ jobs, j = f j0 ∧ j0.id = jid := by
  obtain ⟨j0, hj0, heq⟩ := List.mem_map.mp hj
  by_cases h : j0.id = jid
  · rw [if_pos h] at heq
    exact ⟨j0, hj0, heq.symm, h⟩
  · rw [if_neg h] at heq
    exact absurd (heq ▸ hid) h

theorem find?_updateRows (jobs : List JobRow) (jid : Nat) (f : JobRow → JobRow)
    (hf : ∀ j, (f j).id = j.id) :
    (updateRows jobs jid f).find? (fun j => j.id == jid) =
      (jobs.find? (fun j => j.id == jid)).map
        (fun j => if j.id = jid then f j else j) := by
  have hp : ((fun j : JobRow => j.id == jid) ∘
      fun j => if j.id = jid then f j else j) = fun j : JobRow => j.id == jid := by
    funext j
    by_cases h : j.id = jid <;> simp [h, hf j]
  rw [updateRows, List.find?_map, hp]

theorem mapDelete_any_self (m : List (Nat × ActiveInfo)) (k : Nat) :
    (mapDelete m k).any (fun p => p.1 == k) = false := by
  rw [mapDelete, List.any_eq_false]
  intro p hp
  have h2 := (List.mem_filter.mp hp).2
  simp only [bne_iff_ne, ne_eq] at h2
  simp [h2]

/-- C8: `cancelJob` fails with the not-found error exactly when no row with
the given id exists, whatever the remote call does; a call that does not
succeed (a remote-cancel failure) leaves the state completely unchanged —
no corruption; and once a cancel of an existing job has succeeded, every
row with that id is persisted `CANCELLED`, a second call on the same id
succeeds for every remote outcome (the active entry is gone, so the remote
call is not even made), and the status remains `CANCELLED`. -/
theorem cancelJob_notfound_iff_idempotent (s : SysState) (jobId : Nat) :
    (∀ o : CancelOutcome,
      ((cancelJob s jobId o).1 = .error .jobNotFound ↔
        s.jobs.find? (fun j => j.id == jobId) = none))
    ∧ (∀ o : CancelOutcome,
        (cancelJob s jobId o).1 = .ok () ∨ (cancelJob s jobId o).2 = s)
    ∧ ∀ job, s.jobs.find? (fun j => j.id == jobId) = some job →
        ∀ o1 : CancelOutcome, (cancelJob s jobId o1).1 = .ok () →
          (∀ j ∈ (cancelJob s jobId o1).2.jobs, j.id = jobId →
            j.status = .CANCELLED)
          ∧ ∀ o2 : CancelOutcome,
              (cancelJob (cancelJob s jobId o1).2 jobId o2).1 = .ok ()
              ∧ ∀ j ∈ (cancelJob (cancelJob s jobId o1).2 jobId o2).2.jobs,
                  j.id = jobId → j.status = .CANCELLED := by
  refine ⟨?_, ?_, ?_⟩
  · intro o
    cases hfind : s.jobs.find? (fun j => j.id == jobId) with
    | none => simp [cancelJob, hfind]
    | some job =>
      have hne : (cancelJob s jobId o).1 ≠ .error .jobNotFound := by
        simp only [cancelJob, hfind]
        split
        · cases o <;> simp
        · simp
      exact ⟨fun h1 => absurd h1 hne, fun h1 => Option.noConfusion h1⟩
  · intro o
    cases hfind : s.jobs.find? (fun j => j.id == jobId) with
    | none =>
      right
      simp [cancelJob, hfind]
    | some job =>
      by_cases hcond : (job.runpod_job_id.isSome &&
          s.activeJobs.any (fun p => p.1 == jobId)) = true
      · cases o with
        | err msg =>
          right
          simp only [cancelJob, hfind, if_pos hcond]
        | ok =>
          left
          simp only [cancelJob, hfind, if_pos hcond]
      · left
        simp only [cancelJob, hfind, if_neg hcond]
  · intro job hfind o1 hok1
    have hidj : job.id = jobId := by simpa using List.find?_some hfind
    by_cases hcond : (job.runpod_job_id.isSome &&
        s.activeJobs.any (fun p => p.1 == jobId)) = true
    · cases o1 with
      | err msg =>
        exfalso
        rw [show (cancelJob s jobId (.err msg)).1 =
            .error (.remoteCancelError msg) from by
          simp only [cancelJob, hfind, if_pos hcond]] at hok1
        cases hok1
      | ok =>
        have hjobs1 : (cancelJob s jobId .ok).2.jobs =
            updateRows s.jobs jobId (fun j => { j with status := .CANCELLED }) := by
          simp only [cancelJob, hfind, if_pos hcond]
        have hactive1 : (cancelJob s jobId .ok).2.activeJobs =
            mapDelete s.activeJobs jobId := by
          simp only [cancelJob, hfind, if_pos hcond]
        obtain ⟨S, hS⟩ : ∃ S, (cancelJob s jobId .ok).2 = S := ⟨_, rfl⟩
        rw [hS] at hjobs1 hactive1 ⊢
        have hfind1 : S.jobs.find? (fun j => j.id == jobId) =
            some ({ job with status := .CANCELLED }) := by
          rw [hjobs1, find?_updateRows s.jobs jobId
            (fun j => { j with status := JobStatus.CANCELLED }) (fun j => rfl),
            hfind]
          simp [hidj]
        have hcond2 : ¬ ((job.runpod_job_id.isSome &&
            S.activeJobs.any (fun p => p.1 == jobId)) = true) := by
          rw [hactive1, mapDelete_any_self]
          simp
        refine ⟨?_, ?_⟩
        · intro j hj hid
          rw [hjobs1] at hj
          obtain ⟨j0, _, rfl, _⟩ := updateRows_id_match
            (f := fun j => { j with status := JobStatus.CANCELLED })
            (fun j => rfl) hj hid
          rfl
        · intro o2
          have hjobs2 : (cancelJob S jobId o2).2.jobs =
              updateRows S.jobs jobId
                (fun j => { j with status := .CANCELLED }) := by
            simp only [cancelJob, hfind1, if_neg hcond2]
          have hok2 : (cancelJob S jobId o2).1 = .ok () := by
            simp only [cancelJob, hfind1, if_neg hcond2]
          refine ⟨hok2, ?_⟩
          intro j hj hid
          rw [hjobs2] at hj
          obtain ⟨j0, _, rfl, _⟩ := updateRows_id_match
            (f := fun j => { j with status := JobStatus.CANCELLED })
            (fun j => rfl) hj hid
          rfl
    · have hjobs1 : (cancelJob s jobId o1).2.jobs =
          updateRows s.jobs jobId (fun j => { j with status := .CANCELLED }) := by
        simp only [cancelJob, hfind, if_neg hcond]
      have hactive1 : (cancelJob s jobId o1).2.activeJobs = s.activeJobs := by
        simp only [cancelJob, hfind, if_neg hcond]
      obtain ⟨S, hS⟩ : ∃ S, (cancelJob s jobId o1).2 = S := ⟨_, rfl⟩
      rw [hS] at hjobs1 hactive1 ⊢
      have hfind1 : S.jobs.find? (fun j => j.id == jobId) =
          some ({ job with status := .CANCELLED }) := by
        rw [hjobs1, find?_updateRows s.jobs jobId
          (fun j => { j with status := JobStatus.CANCELLED }) (fun j => rfl),
          hfind]
        simp [hidj]
      have hcond2 : ¬ ((job.runpod_job_id.isSome &&
          S.activeJobs.any (fun p => p.1 == jobId)) = true) := by
        rw [hactive1]
        exact hcond
      refine ⟨?_, ?_⟩
      · intro j hj hid
        rw [hjobs1] at hj
        obtain ⟨j0, _, rfl, _⟩ := updateRows_id_match
          (f := fun j => { j with status := JobStatus.CANCELLED })
          (fun j => rfl) hj hid
        rfl
      · intro o2
        have hjobs2 : (cancelJob S jobId o2).2.jobs =
            updateRows S.jobs jobId
              (fun j => { j with status := .CANCELLED }) := by
          simp only [cancelJob, hfind1, if_neg hcond2]
        have hok2 : (cancelJob S jobId o2).1 = .ok () := by
          simp only [cancelJob, hfind1, if_neg hcond2]
        refine ⟨hok2, ?_⟩
        intro j hj hid
        rw [hjobs2] at hj
        obtain ⟨j0, _, rfl, _⟩ := updateRows_id_match
          (f := fun j => { j with status := JobStatus.CANCELLED })
          (fun j => rfl) hj hid
        rfl

/-- Witness for C8 on `wState` (one pending row with id 0, no remote
handle): NotFound at the absent id 7; the first cancel succeeds; a failing
call would leave the state unchanged; and a second cancel succeeds — even
when its remote call would fail — with the row still `CANCELLED`. -/
theorem cancelJob_notfound_iff_idempotent_witness :
    (cancelJob wState 7 .ok).1 = .error .jobNotFound
    ∧ ((cancelJob wState 0 .ok).1 = .ok () ∨ (cancelJob wState 0 .ok).2 = wState)
    ∧ (∀ j ∈ (cancelJob wState 0 .ok).2.jobs, j.id = 0 → j.status = .CANCELLED)
    ∧ (cancelJob (cancelJob wState 0 .ok).2 0 (.err "network")).1 = .ok ()
    ∧ ∀ j ∈ (cancelJob (cancelJob wState 0 .ok).2 0 (.err "network")).2.jobs,
        j.id = 0 → j.status = .CANCELLED := by
  have h7 := ((cancelJob_notfound_iff_idempotent wState 7).1 CancelOutcome.ok).mpr
    (by simp [wState, List.find?, wRow])
  have hsafe := (cancelJob_notfound_iff_idempotent wState 0).2.1 CancelOutcome.ok
  have h0 := (cancelJob_notfound_iff_idempotent wState 0).2.2 wRow
    (by simp [wState, List.find?, wRow]) CancelOutcome.ok rfl
  exact ⟨h7, hsafe, h0.1, (h0.2 (.err "network")).1, (h0.2 (.err "network")).2⟩

theorem length_filter_le_of_imp {α} (p q : α → Bool) (l : List α)
    (h : ∀ a ∈ l, p a = true → q a = true) :
    (l.filter p).length ≤ (l.filter q).length := by
  induction l with
  | nil => exact le_rfl
  | cons a t ih =>
    have ht := ih (fun x hx => h x (List.mem_cons_of_mem a hx))
    by_cases hpa : p a = true
    · rw [List.filter_cons_of_pos hpa, List.filter_cons_of_pos (h a (by simp) hpa)]
      simpa using ht
    · rw [List.filter_cons_of_neg (by simpa using hpa)]
      by_cases hqa : q a = true
      · rw [List.filter_cons_of_pos hqa]
        exact le_trans ht (by simp)
      · rw [List.filter_cons_of_neg (by simpa using hqa)]
        exact ht

theorem length_filter_map_le {α} (g : α → α) (p q : α → Bool) (l : List α)
    (h : ∀ a ∈ l, p (g a) = true → q a = true) :
    ((l.map g).filter p).length ≤ (l.filter q).length := by
  induction l with
  | nil => exact le_rfl
  | cons a t ih =>
    have ht := ih (fun x hx => h x (List.mem_cons_of_mem a hx))
    rw [List.map_cons]
    by_cases hpa : p (g a) = true
    · rw [List.filter_cons_of_pos hpa, List.filter_cons_of_pos (h a (by simp) hpa)]
      simpa using ht
    · rw [List.filter_cons_of_neg (by simpa using hpa)]
      by_cases hqa : q a = true
      · rw [List.filter_cons_of_pos hqa]
        exact le_trans ht (by simp)
      · rw [List.filter_cons_of_neg (by simpa using hqa)]
        exact ht

theorem count_updateRows_le (jobs : List JobRow) (jid : Nat)
    (f : JobRow → JobRow) (h : String)
    (hhash : ∀ j, (f j).input_hash = j.input_hash)
    (himp : ∀ j ∈ jobs, j.id = jid → isNonTerminal (f j).status = true →
      isNonTerminal j.status = true) :
    hashNonTerminalCount (updateRows jobs jid f) h ≤
      hashNonTerminalCount jobs h := by
  apply length_filter_map_le
  intro j hjmem hpj
  by_cases hid : j.id = jid
  · rw [if_pos hid] at hpj
    simp only [Bool.and_eq_true, decide_eq_true_eq] at hpj ⊢
    exact ⟨(hhash j) ▸ hpj.1, himp j hjmem hid hpj.2⟩
  · rwa [if_neg hid] at hpj

theorem count_append_one (jobs : List JobRow) (row : JobRow) (h : String) :
    hashNonTerminalCount (jobs ++ [row]) h =
      hashNonTerminalCount jobs h +
        (if decide (row.input_hash = h) && isNonTerminal row.status then 1 else 0) := by
  simp only [hashNonTerminalCount, List.filter_append, List.length_append]
  congr 1
  by_cases hrow : (decide (row.input_hash = h) && isNonTerminal row.status) = true
  · simp [hrow]
  · simp [List.filter_cons, hrow]

theorem length_insertByCreated (j : JobRow) (l : List JobRow) :
    (insertByCreated j l).length = l.length + 1 := by
  induction l with
  | nil => rfl
  | cons k ks ih =>
    simp only [insertByCreated]
    split
    · simp
    · simp [ih]

theorem length_sortByCreated (l : List JobRow) :
    (sortByCreated l).length = l.length := by
  induction l with
  | nil => rfl
  | cons a t ih =>
    show (insertByCreated a (sortByCreated t)).length = t.length + 1
    rw [length_insertByCreated, ih]

theorem isNonTerminal_isDedup {st : JobStatus} (h : isNonTerminal st = true) :
    isDedupStatus st = true := by
  cases st <;> first | rfl | exact absurd h (by simp [isNonTerminal])

theorem count_eq_zero_of_getJobByHash_none {jobs : List JobRow} {h : String}
    (hnone : getJobByHash jobs h = none) : hashNonTerminalCount jobs h = 0 := by
  have hsortnil : sortByCreated (dedupFilter jobs h) = [] :=
    List.getLast?_eq_none_iff.mp hnone
  have hnil : dedupFilter jobs h = [] := by
    have hlen := congrArg List.length hsortnil
    rw [length_sortByCreated] at hlen
    exact List.length_eq_zero.mp hlen
  have hle := length_filter_le_of_imp
    (fun j => decide (j.input_hash = h) && isNonTerminal j.status)
    (fun j => decide (j.input_hash = h) && isDedupStatus j.status) jobs
    (by
      intro a _ hp
      simp only [Bool.and_eq_true, decide_eq_true_eq] at hp ⊢
      exact ⟨hp.1, isNonTerminal_isDedup hp.2⟩)
  have h0 : (jobs.filter
      (fun j => decide (j.input_hash = h) && isDedupStatus j.status)).length = 0 := by
    rw [show jobs.filter (fun j => decide (j.input_hash = h) && isDedupStatus j.status)
        = dedupFilter jobs h from rfl, hnil]
    rfl
  rw [hashNonTerminalCount]
  omega

/-- `submitJob` with deduplication on preserves the per-hash non-terminal
bound: if it creates a row, no matching non-terminal (nor completed) row
existed. -/
theorem submit_dedupInv (hashFn : Json → String) (cfg : Config) (s : SysState)
    (e : Option String) (inp : Json) (hinv : DedupInvariant s) :
    DedupInvariant (submitJob hashFn cfg s e inp false).2 := by
  cases hmatch : getJobByHash s.jobs (hashFn inp) with
  | some m =>
    have hstate : (submitJob hashFn cfg s e inp false).2 = s := by
      simp [submitJob, hmatch]
    rw [hstate]
    exact hinv
  | none =>
    by_cases hb : cfg.budgetLimitDaily ≤ s.todaySpend
    · have hstate : (submitJob hashFn cfg s e inp false).2 = s := by
        simp [submitJob, hmatch, hb]
      rw [hstate]
      exact hinv
    · cases e with
      | none =>
        have hstate : (submitJob hashFn cfg s none inp false).2 = s := by
          simp [submitJob, hmatch, hb]
        rw [hstate]
        exact hinv
      | some e0 =>
        have hjobs : (submitJob hashFn cfg s (some e0) inp false).2.jobs =
            s.jobs ++ [newRow s (some e0) (hashFn inp) inp] := by
          simp [submitJob, hmatch, hb]
        intro h
        rw [hjobs, count_append_one]
        by_cases hh : hashFn inp = h
        · have hzero : hashNonTerminalCount s.jobs h = 0 :=
            count_eq_zero_of_getJobByHash_none (hh ▸ hmatch)
          simp only [hzero, Nat.zero_add]
          split <;> simp
        · have : ((newRow s (some e0) (hashFn inp) inp).input_hash = h) = False := by
            simp [newRow, hh]
          simp [this]
          exact hinv h

/-- `cancelJob` preserves the per-hash non-terminal bound (it either
changes nothing — NotFound or a remote-cancel failure — or moves one row to
the terminal `CANCELLED`). -/
theorem cancel_dedupInv (s : SysState) (jobId : Nat) (o : CancelOutcome)
    (hinv : DedupInvariant s) : DedupInvariant (cancelJob s jobId o).2 := by
  cases hfind : s.jobs.find? (fun j => j.id == jobId) with
  | none =>
    have hstate : (cancelJob s jobId o).2 = s := by simp [cancelJob, hfind]
    rw [hstate]
    exact hinv
  | some job =>
    by_cases hcond : (job.runpod_job_id.isSome &&
        s.activeJobs.any (fun p => p.1 == jobId)) = true
    · cases o with
      | err msg =>
        have hstate : (cancelJob s jobId (.err msg)).2 = s := by
          simp only [cancelJob, hfind, if_pos hcond]
        rw [hstate]
        exact hinv
      | ok =>
        have hjobs : (cancelJob s jobId .ok).2.jobs =
            updateRows s.jobs jobId
              (fun j => { j with status := .CANCELLED }) := by
          simp only [cancelJob, hfind, if_pos hcond]
        intro h
        rw [hjobs]
        exact le_trans
          (count_updateRows_le s.jobs jobId _ h (fun j => rfl)
            (fun j _ _ hnt => absurd hnt (by simp [isNonTerminal])))
          (hinv h)
    · have hjobs : (cancelJob s jobId o).2.jobs =
          updateRows s.jobs jobId (fun j => { j with status := .CANCELLED }) := by
        simp only [cancelJob, hfind, if_neg hcond]
      intro h
      rw [hjobs]
      exact le_trans
        (count_updateRows_le s.jobs jobId _ h (fun j => rfl)
          (fun j _ _ hnt => absurd hnt (by simp [isNonTerminal])))
        (hinv h)

/-- `pollOne` preserves the per-hash non-terminal bound (its updates are to
the terminal statuses `COMPLETED` / `FAILED`). -/
theorem pollOne_dedupInv (s : SysState) (k : Nat) (r : PollReport)
    (hinv : DedupInvariant s) : DedupInvariant (pollOne s k r) := by
  cases r with
  | completed output =>
    intro h
    exact le_trans
      (count_updateRows_le s.jobs k _ h (fun j => rfl)
        (fun j _ _ hnt => absurd hnt (by simp [isNonTerminal])))
      (hinv h)
  | failed err =>
    intro h
    exact le_trans
      (count_updateRows_le s.jobs k _ h (fun j => rfl)
        (fun j _ _ hnt => absurd hnt (by simp [isNonTerminal])))
      (hinv h)
  | inProgress => exact hinv
  | pollError => exact hinv

/-- `pollActiveJobs` preserves the per-hash non-terminal bound. -/
theorem pollActive_dedupInv (s : SysState) (reports : Nat → PollReport)
    (hinv : DedupInvariant s) : DedupInvariant (pollActiveJobs s reports) := by
  rw [pollActiveJobs]
  generalize s.activeJobs = l
  induction l generalizing s with
  | nil => exact hinv
  | cons e t ih =>
    exact ih (pollOne s e.1 (reports e.1)) (pollOne_dedupInv s e.1 (reports e.1) hinv)

theorem mem_updateRows_of_ne {jobs : List JobRow} {jid : Nat}
    {f : JobRow → JobRow} {j : JobRow} (hj : j ∈ updateRows jobs jid f)
    (hid : ∀ j', (f j').id = j'.id) (hne : j.id ≠ jid) : j ∈ jobs := by
  obtain ⟨j0, hj0, heq⟩ := List.mem_map.mp hj
  by_cases h : j0.id = jid
  · rw [if_pos h] at heq
    subst heq
    exfalso
    apply hne
    rw [hid j0]
    exact h
  · rw [if_neg h] at heq
    subst heq
    exact hj0

theorem processJob_count_le (cfg : Config) (s : SysState) (job : JobRow)
    (o : DispatchOutcome) (h : String)
    (hcond : ∀ j ∈ s.jobs, j.id = job.id → isNonTerminal j.status = true) :
    hashNonTerminalCount (processJob cfg s job o).jobs h ≤
      hashNonTerminalCount s.jobs h := by
  have step1 := count_updateRows_le s.jobs job.id
    (fun j =>
      { j with status := JobStatus.RUNNING, started_at := some s.nextSeq,
               attempts := job.attempts + 1 }) h (fun j => rfl)
    (fun j hm hid _ => hcond j hm hid)
  have hrun : ∀ j ∈ updateRows s.jobs job.id
      (fun j =>
        { j with status := JobStatus.RUNNING, started_at := some s.nextSeq,
                 attempts := job.attempts + 1 }),
      j.id = job.id → isNonTerminal j.status = true := by
    intro j hj hid
    obtain ⟨j0, _, rfl, _⟩ := updateRows_id_match
      (f := fun j =>
        { j with status := JobStatus.RUNNING, started_at := some s.nextSeq,
                 attempts := job.attempts + 1 })
      (fun j => rfl) hj hid
    rfl
  cases o with
  | ok rid =>
    exact le_trans (count_updateRows_le _ job.id
      (fun j => { j with runpod_job_id := some rid, status := JobStatus.IN_QUEUE }) h
      (fun j => rfl) (fun j hm hid _ => hrun j hm hid)) step1
  | err msg =>
    by_cases hc : cfg.maxRetryAttempts ≤ job.attempts + 1
    · have hshape : (processJob cfg s job (.err msg)).jobs =
          updateRows (updateRows s.jobs job.id
            (fun j =>
              { j with status := JobStatus.RUNNING, started_at := some s.nextSeq,
                       attempts := job.attempts + 1 })) job.id
            (fun j =>
              { j with status := JobStatus.FAILED, error := some msg,
                       attempts := job.attempts + 1 }) := by
        simp only [processJob, if_pos hc]
      rw [hshape]
      exact le_trans (count_updateRows_le _ job.id _ h (fun j => rfl)
        (fun j hm hid _ => hrun j hm hid)) step1
    · have hshape : (processJob cfg s job (.err msg)).jobs =
          updateRows (updateRows s.jobs job.id
            (fun j =>
              { j with status := JobStatus.RUNNING, started_at := some s.nextSeq,
                       attempts := job.attempts + 1 })) job.id
            (fun j =>
              { j with status := JobStatus.PENDING, error := some msg,
                       attempts := job.attempts + 1 }) := by
        simp only [processJob, if_neg hc]
      rw [hshape]
      exact le_trans (count_updateRows_le _ job.id _ h (fun j => rfl)
        (fun j hm hid _ => hrun j hm hid)) step1

theorem processJob_mem_of_ne {cfg : Config} {s : SysState} {job : JobRow}
    {o : DispatchOutcome} {j : JobRow}
    (hj : j ∈ (processJob cfg s job o).jobs) (hne : j.id ≠ job.id) : j ∈ s.jobs := by
  cases o with
  | ok rid =>
    exact mem_updateRows_of_ne
      (mem_updateRows_of_ne hj (fun j' => rfl) hne) (fun j' => rfl) hne
  | err msg =>
    by_cases hc : cfg.maxRetryAttempts ≤ job.attempts + 1
    · rw [show (processJob cfg s job (.err msg)).jobs =
          updateRows (updateRows s.jobs job.id
            (fun j =>
              { j with status := JobStatus.RUNNING, started_at := some s.nextSeq,
                       attempts := job.attempts + 1 })) job.id
            (fun j =>
              { j with status := JobStatus.FAILED, error := some msg,
                       attempts := job.attempts + 1 }) from by
        simp only [processJob, if_pos hc]] at hj
      exact mem_updateRows_of_ne
        (mem_updateRows_of_ne hj (fun j' => rfl) hne) (fun j' => rfl) hne
    · rw [show (processJob cfg s job (.err msg)).jobs =
          updateRows (updateRows s.jobs job.id
            (fun j =>
              { j with status := JobStatus.RUNNING, started_at := some s.nextSeq,
                       attempts := job.attempts + 1 })) job.id
            (fun j =>
              { j with status := JobStatus.PENDING, error := some msg,
                       attempts := job.attempts + 1 }) from by
        simp only [processJob, if_neg hc]] at hj
      exact mem_updateRows_of_ne
        (mem_updateRows_of_ne hj (fun j' => rfl) hne) (fun j' => rfl) hne

theorem foldProcess_dedupInv (cfg : Config) (outcomes : Nat → DispatchOutcome) :
    ∀ (l : List JobRow) (s : SysState), DedupInvariant s →
      List.Pairwise (fun a b => a.id ≠ b.id) l →
      (∀ jf ∈ l, ∀ j ∈ s.jobs, j.id = jf.id → isNonTerminal j.status = true) →
      DedupInvariant (l.foldl (fun st j => processJob cfg st j (outcomes j.id)) s) := by
  intro l
  induction l with
  | nil => exact fun s hinv _ _ => hinv
  | cons jf rest ih =>
    intro s hinv hpw hpend
    obtain ⟨hhead, htail⟩ := List.pairwise_cons.mp hpw
    simp only [List.foldl_cons]
    apply ih
    · intro h
      exact le_trans
        (processJob_count_le cfg s jf _ h
          (fun j hm hid => hpend jf (by simp) j hm hid))
        (hinv h)
    · exact htail
    · intro jr hjr j hj hid
      have hne : j.id ≠ jf.id := by
        rw [hid]
        intro he
        exact hhead jr hjr he.symm
      exact hpend jr (List.mem_cons_of_mem _ hjr) j
        (processJob_mem_of_ne hj hne) hid

theorem row_unique_by_id {jobs : List JobRow}
    (hs : List.Pairwise (fun a b => a.created_at < b.created_at) jobs)
    (hid : ∀ j ∈ jobs, j.id = j.created_at) :
    ∀ a ∈ jobs, ∀ b ∈ jobs, a.id = b.id → a = b := by
  induction jobs with
  | nil => simp
  | cons x t ih =>
    obtain ⟨hx, ht⟩ := List.pairwise_cons.mp hs
    intro a ha b hb heq
    rcases List.mem_cons.mp ha with rfl | ha' <;>
      rcases List.mem_cons.mp hb with rfl | hb'
    · rfl
    · exfalso
      have h1 := hx b hb'
      have h2 := hid a (by simp)
      have h3 := hid b (List.mem_cons_of_mem _ hb')
      omega
    · exfalso
      have h1 := hx a ha'
      have h2 := hid b (by simp)
      have h3 := hid a (List.mem_cons_of_mem _ ha')
      omega
    · exact ih ht (fun j hj => hid j (List.mem_cons_of_mem _ hj)) a ha' b hb' heq

theorem mem_tickFetch {cfg : Config} {s : SysState}
    (hs : List.Pairwise (fun a b => a.created_at < b.created_at) s.jobs)
    {jf : JobRow} (hjf : jf ∈ tickFetch cfg s) :
    jf.status = .PENDING ∧ jf ∈ s.jobs := by
  simp only [tickFetch, getPendingJobs,
    sortByCreated_of_sorted (List.Pairwise.filter _ hs)] at hjf
  have hjf' : jf ∈ s.jobs.filter (fun j => decide (j.status = .PENDING)) := by
    split at hjf
    · exact hjf
    · exact List.mem_of_mem_take hjf
  have := List.mem_filter.mp hjf'
  exact ⟨by simpa using this.2, this.1⟩

theorem tickFetch_pairwise {cfg : Config} {s : SysState}
    (hs : List.Pairwise (fun a b => a.created_at < b.created_at) s.jobs) :
    List.Pairwise (fun a b => a.created_at < b.created_at) (tickFetch cfg s) := by
  simp only [tickFetch, getPendingJobs,
    sortByCreated_of_sorted (List.Pairwise.filter _ hs)]
  split
  · exact List.Pairwise.filter _ hs
  · exact List.Pairwise.take (List.Pairwise.filter _ hs)

/-- One loop tick preserves the per-hash non-terminal bound. -/
theorem tick_dedupInv (cfg : Config) (s : SysState)
    (outcomes : Nat → DispatchOutcome) (reports : Nat → PollReport)
    (hwf : WF cfg s) (hinv : DedupInvariant s) :
    DedupInvariant (tick cfg s outcomes reports) := by
  obtain ⟨⟨hsort, hstamp⟩, hact⟩ := hwf
  refine pollActive_dedupInv _ reports (foldProcess_dedupInv cfg outcomes _ s hinv ?_ ?_)
  · refine List.Pairwise.imp_of_mem ?_ (tickFetch_pairwise hsort)
    intro a b ha hb hr
    have ha' := (hstamp a (mem_tickFetch hsort ha).2).1
    have hb' := (hstamp b (mem_tickFetch hsort hb).2).1
    omega
  · intro jf hjf j hj hid
    obtain ⟨hpend, hmem⟩ := mem_tickFetch hsort hjf
    have hj' : j = jf :=
      row_unique_by_id hsort (fun j' hj'' => (hstamp j' hj'').1) j hj jf hmem hid
    rw [hj', hpend]
    rfl

theorem updateRows_pairwise {jobs : List JobRow} {i : Nat}
    {f : JobRow → JobRow} (hca : ∀ j, (f j).created_at = j.created_at)
    (h : List.Pairwise (fun a b => a.created_at < b.created_at) jobs) :
    List.Pairwise (fun a b => a.created_at < b.created_at)
      (updateRows jobs i f) := by
  rw [updateRows, List.pairwise_map]
  refine h.imp ?_
  intro a b hab
  have hga : (if a.id = i then f a else a).created_at = a.created_at := by
    split
    · exact hca a
    · rfl
  have hgb : (if b.id = i then f b else b).created_at = b.created_at := by
    split
    · exact hca b
    · rfl
  rw [hga, hgb]
  exact hab

theorem updateRows_stamped {jobs : List JobRow} {i : Nat}
    {f : JobRow → JobRow} (hid : ∀ j, (f j).id = j.id)
    (hca : ∀ j, (f j).created_at = j.created_at) {n : Nat}
    (h : ∀ j ∈ jobs, j.id = j.created_at ∧ j.created_at < n) :
    ∀ j ∈ updateRows jobs i f, j.id = j.created_at ∧ j.created_at < n := by
  intro j hj
  obtain ⟨j0, hj0, heq⟩ := List.mem_map.mp hj
  subst heq
  have hgid : (if j0.id = i then f j0 else j0).id = j0.id := by
    split
    · exact hid j0
    · rfl
  have hgca : (if j0.id = i then f j0 else j0).created_at = j0.created_at := by
    split
    · exact hca j0
    · rfl
  rw [hgid, hgca]
  exact h j0 hj0

theorem processJob_rowsWF (cfg : Config) (s : SysState) (job : JobRow)
    (o : DispatchOutcome) (h : RowsWF s) : RowsWF (processJob cfg s job o) := by
  obtain ⟨hsort, hstamp⟩ := h
  have hsort1 := updateRows_pairwise
    (f := fun j =>
      { j with status := JobStatus.RUNNING, started_at := some s.nextSeq,
               attempts := job.attempts + 1 }) (i := job.id) (fun j => rfl) hsort
  have hstamp1 := updateRows_stamped
    (f := fun j =>
      { j with status := JobStatus.RUNNING, started_at := some s.nextSeq,
               attempts := job.attempts + 1 }) (i := job.id)
    (fun j => rfl) (fun j => rfl) hstamp
  cases o with
  | ok rid =>
    exact ⟨updateRows_pairwise
        (f := fun j => { j with runpod_job_id := some rid, status := JobStatus.IN_QUEUE })
        (fun j => rfl) hsort1,
      updateRows_stamped
        (f := fun j => { j with runpod_job_id := some rid, status := JobStatus.IN_QUEUE })
        (fun j => rfl) (fun j => rfl) hstamp1⟩
  | err msg =>
    by_cases hc : cfg.maxRetryAttempts ≤ job.attempts + 1
    · constructor
      · rw [show (processJob cfg s job (.err msg)).jobs =
            updateRows (updateRows s.jobs job.id
              (fun j =>
                { j with status := JobStatus.RUNNING, started_at := some s.nextSeq,
                         attempts := job.attempts + 1 })) job.id
              (fun j =>
                { j with status := JobStatus.FAILED, error := some msg,
                         attempts := job.attempts + 1 }) from by
          simp only [processJob, if_pos hc]]
        exact updateRows_pairwise
          (f := fun j =>
            { j with status := JobStatus.FAILED, error := some msg,
                     attempts := job.attempts + 1 })
          (fun j => rfl) hsort1
      · have hnext : (processJob cfg s job (.err msg)).nextSeq = s.nextSeq := by
          simp only [processJob, if_pos hc]
        rw [show (processJob cfg s job (.err msg)).jobs =
            updateRows (updateRows s.jobs job.id
              (fun j =>
                { j with status := JobStatus.RUNNING, started_at := some s.nextSeq,
                         attempts := job.attempts + 1 })) job.id
              (fun j =>
                { j with status := JobStatus.FAILED, error := some msg,
                         attempts := job.attempts + 1 }) from by
          simp only [processJob, if_pos hc], hnext]
        exact updateRows_stamped
          (f := fun j =>
            { j with status := JobStatus.FAILED, error := some msg,
                     attempts := job.attempts + 1 })
          (fun j => rfl) (fun j => rfl) hstamp1
    · constructor
      · rw [show (processJob cfg s job (.err msg)).jobs =
            updateRows (updateRows s.jobs job.id
              (fun j =>
                { j with status := JobStatus.RUNNING, started_at := some s.nextSeq,
                         attempts := job.attempts + 1 })) job.id
              (fun j =>
                { j with status := JobStatus.PENDING, error := some msg,
                         attempts := job.attempts + 1 }) from by
          simp only [processJob, if_neg hc]]
        exact updateRows_pairwise
          (f := fun j =>
            { j with status := JobStatus.PENDING, error := some msg,
                     attempts := job.attempts + 1 })
          (fun j => rfl) hsort1
      · have hnext : (processJob cfg s job (.err msg)).nextSeq = s.nextSeq := by
          simp only [processJob, if_neg hc]
        rw [show (processJob cfg s job (.err msg)).jobs =
            updateRows (updateRows s.jobs job.id
              (fun j =>
                { j with status := JobStatus.RUNNING, started_at := some s.nextSeq,
                         attempts := job.attempts + 1 })) job.id
              (fun j =>
                { j with status := JobStatus.PENDING, error := some msg,
                         attempts := job.attempts + 1 }) from by
          simp only [processJob, if_neg hc], hnext]
        exact updateRows_stamped
          (f := fun j =>
            { j with status := JobStatus.PENDING, error := some msg,
                     attempts := job.attempts + 1 })
          (fun j => rfl) (fun j => rfl) hstamp1

theorem length_mapSet_le (m : List (Nat × ActiveInfo)) (k : Nat)
    (v : ActiveInfo) : (mapSet m k v).length ≤ m.length + 1 := by
  rw [mapSet]
  split
  · simp
  · simp

theorem processJob_active_le (cfg : Config) (s : SysState) (job : JobRow)
    (o : DispatchOutcome) :
    (processJob cfg s job o).activeJobs.length ≤ s.activeJobs.length + 1 := by
  cases o with
  | ok rid => exact length_mapSet_le _ _ _
  | err msg =>
    by_cases hc : cfg.maxRetryAttempts ≤ job.attempts + 1
    · have : (processJob cfg s job (.err msg)).activeJobs = s.activeJobs := by
        simp only [processJob, if_pos hc]
      rw [this]
      exact Nat.le_succ _
    · have : (processJob cfg s job (.err msg)).activeJobs = s.activeJobs := by
        simp only [processJob, if_neg hc]
      rw [this]
      exact Nat.le_succ _

theorem pollOne_rowsWF (s : SysState) (k : Nat) (r : PollReport)
    (h : RowsWF s) : RowsWF (pollOne s k r) := by
  obtain ⟨hsort, hstamp⟩ := h
  cases r with
  | completed output =>
    exact ⟨updateRows_pairwise
        (f := fun j =>
          { j with status := JobStatus.COMPLETED, output := some output,
                   completed_at := some s.nextSeq })
        (fun j => rfl) hsort,
      updateRows_stamped
        (f := fun j =>
          { j with status := JobStatus.COMPLETED, output := some output,
                   completed_at := some s.nextSeq })
        (fun j => rfl) (fun j => rfl) hstamp⟩
  | failed err =>
    exact ⟨updateRows_pairwise
        (f := fun j =>
          { j with status := JobStatus.FAILED, error := some (err.getD "Job failed"),
                   completed_at := some s.nextSeq })
        (fun j => rfl) hsort,
      updateRows_stamped
        (f := fun j =>
          { j with status := JobStatus.FAILED, error := some (err.getD "Job failed"),
                   completed_at := some s.nextSeq })
        (fun j => rfl) (fun j => rfl) hstamp⟩
  | inProgress => exact ⟨hsort, hstamp⟩
  | pollError => exact ⟨hsort, hstamp⟩

theorem pollOne_active_le (s : SysState) (k : Nat) (r : PollReport) :
    (pollOne s k r).activeJobs.length ≤ s.activeJobs.length := by
  cases r with
  | completed output => exact List.length_filter_le _ _
  | failed err => exact List.length_filter_le _ _
  | inProgress => exact le_rfl
  | pollError => exact le_rfl

theorem foldProcess_rowsWF (cfg : Config) (outcomes : Nat → DispatchOutcome) :
    ∀ (l : List JobRow) (s : SysState), RowsWF s →
      RowsWF (l.foldl (fun st j => processJob cfg st j (outcomes j.id)) s) := by
  intro l
  induction l with
  | nil => exact fun s h => h
  | cons a t ih =>
    intro s h
    exact ih _ (processJob_rowsWF cfg s a _ h)

theorem foldProcess_active (cfg : Config) (outcomes : Nat → DispatchOutcome) :
    ∀ (l : List JobRow) (s : SysState),
      (l.foldl (fun st j => processJob cfg st j (outcomes j.id)) s).activeJobs.length ≤
        s.activeJobs.length + l.length := by
  intro l
  induction l with
  | nil => exact fun s => le_rfl
  | cons a t ih =>
    intro s
    calc (List.foldl _ (processJob cfg s a (outcomes a.id)) t).activeJobs.length
        ≤ (processJob cfg s a (outcomes a.id)).activeJobs.length + t.length := ih _
      _ ≤ s.activeJobs.length + 1 + t.length := by
          have := processJob_active_le cfg s a (outcomes a.id)
          omega
      _ = s.activeJobs.length + (a :: t).length := by simp; omega

theorem pollActive_rowsWF (s : SysState) (reports : Nat → PollReport)
    (h : RowsWF s) : RowsWF (pollActiveJobs s reports) := by
  rw [pollActiveJobs]
  generalize s.activeJobs = l
  induction l generalizing s with
  | nil => exact h
  | cons e t ih => exact ih _ (pollOne_rowsWF s e.1 (reports e.1) h)

theorem pollActive_active_le (s : SysState) (reports : Nat → PollReport) :
    (pollActiveJobs s reports).activeJobs.length ≤ s.activeJobs.length := by
  suffices hgen : ∀ (l : List (Nat × ActiveInfo)) (st : SysState),
      (l.foldl (fun st e => pollOne st e.1 (reports e.1)) st).activeJobs.length ≤
        st.activeJobs.length from hgen s.activeJobs s
  intro l
  induction l with
  | nil => exact fun st => le_rfl
  | cons e t ih =>
    intro st
    exact le_trans (ih _) (pollOne_active_le st e.1 (reports e.1))

theorem tickFetch_length_le (cfg : Config) (s : SysState)
    (hact : s.activeJobs.length ≤ cfg.maxConcurrentJobs) :
    (tickFetch cfg s).length + s.activeJobs.length ≤ cfg.maxConcurrentJobs := by
  simp only [tickFetch, getPendingJobs]
  rw [if_neg (by omega :
    ¬ ((cfg.maxConcurrentJobs : Int) - (s.activeJobs.length : Int) < 0))]
  have hlen := List.length_take_le
    ((cfg.maxConcurrentJobs : Int) - (s.activeJobs.length : Int)).toNat
    (sortByCreated (s.jobs.filter (fun j => decide (j.status = .PENDING))))
  omega

theorem tick_WF (cfg : Config) (s : SysState)
    (outcomes : Nat → DispatchOutcome) (reports : Nat → PollReport)
    (h : WF cfg s) : WF cfg (tick cfg s outcomes reports) := by
  obtain ⟨hrows, hact⟩ := h
  constructor
  · exact pollActive_rowsWF _ _ (foldProcess_rowsWF cfg outcomes _ _ hrows)
  · have h1 := foldProcess_active cfg outcomes (tickFetch cfg s) s
    have h2 := pollActive_active_le
      ((tickFetch cfg s).foldl (fun st j => processJob cfg st j (outcomes j.id)) s)
      reports
    have h3 := tickFetch_length_le cfg s hact
    show (pollActiveJobs _ reports).activeJobs.length ≤ _
    omega

theorem append_newRow_WF (cfg : Config) (s : SysState) (e : Option String)
    (hsh : String) (inp : Json) (h : WF cfg s) :
    WF cfg { s with jobs := s.jobs ++ [newRow s e hsh inp],
                    events := s.events ++ [.jobCreated s.nextSeq],
                    nextSeq := s.nextSeq + 1 } := by
  obtain ⟨⟨hsort, hstamp⟩, hact⟩ := h
  refine ⟨⟨?_, ?_⟩, hact⟩
  · rw [List.pairwise_append]
    refine ⟨hsort, List.pairwise_singleton _ _, ?_⟩
    intro a ha b hb
    obtain rfl : b = newRow s e hsh inp := by simpa using hb
    have := (hstamp a ha).2
    simpa [newRow] using this
  · intro j hj
    rcases List.mem_append.mp hj with hj' | hj'
    · obtain ⟨h1, h2⟩ := hstamp j hj'
      refine ⟨h1, ?_⟩
      show j.created_at < s.nextSeq + 1
      omega
    · obtain rfl : j = newRow s e hsh inp := by simpa using hj'
      refine ⟨rfl, ?_⟩
      show (newRow s e hsh inp).created_at < s.nextSeq + 1
      simp [newRow]

theorem submit_WF (hashFn : Json → String) (cfg : Config) (s : SysState)
    (e : Option String) (inp : Json) (skip : Bool) (h : WF cfg s) :
    WF cfg (submitJob hashFn cfg s e inp skip).2 := by
  by_cases hb : cfg.budgetLimitDaily ≤ s.todaySpend
  · cases skip
    · cases hmatch : getJobByHash s.jobs (hashFn inp) with
      | some m =>
        have hstate : (submitJob hashFn cfg s e inp false).2 = s := by
          simp [submitJob, hmatch]
        rw [hstate]
        exact h
      | none =>
        have hstate : (submitJob hashFn cfg s e inp false).2 = s := by
          simp [submitJob, hmatch, hb]
        rw [hstate]
        exact h
    · have hstate : (submitJob hashFn cfg s e inp true).2 = s := by
        simp [submitJob, hb]
      rw [hstate]
      exact h
  · cases skip
    · cases hmatch : getJobByHash s.jobs (hashFn inp) with
      | some m =>
        have hstate : (submitJob hashFn cfg s e inp false).2 = s := by
          simp [submitJob, hmatch]
        rw [hstate]
        exact h
      | none =>
        cases e with
        | none =>
          have hstate : (submitJob hashFn cfg s none inp false).2 = s := by
            simp [submitJob, hmatch, hb]
          rw [hstate]
          exact h
        | some e0 =>
          have hstate : (submitJob hashFn cfg s (some e0) inp false).2 =
              { s with jobs := s.jobs ++ [newRow s (some e0) (hashFn inp) inp],
                       events := s.events ++ [.jobCreated s.nextSeq],
                       nextSeq := s.nextSeq + 1 } := by
            simp [submitJob, hmatch, hb]
          rw [hstate]
          exact append_newRow_WF cfg s (some e0) (hashFn inp) inp h
    · cases e with
      | none =>
        have hstate : (submitJob hashFn cfg s none inp true).2 = s := by
          simp [submitJob, hb]
        rw [hstate]
        exact h
      | some e0 =>
        have hstate : (submitJob hashFn cfg s (some e0) inp true).2 =
            { s with jobs := s.jobs ++ [newRow s (some e0) (hashFn inp) inp],
                     events := s.events ++ [.jobCreated s.nextSeq],
                     nextSeq := s.nextSeq + 1 } := by
          simp [submitJob, hb]
        rw [hstate]
        exact append_newRow_WF cfg s (some e0) (hashFn inp) inp h

theorem cancel_WF (cfg : Config) (s : SysState) (jobId : Nat)
    (o : CancelOutcome) (h : WF cfg s) : WF cfg (cancelJob s jobId o).2 := by
  obtain ⟨⟨hsort, hstamp⟩, hact⟩ := h
  cases hfind : s.jobs.find? (fun j => j.id == jobId) with
  | none =>
    have hstate : (cancelJob s jobId o).2 = s := by simp [cancelJob, hfind]
    rw [hstate]
    exact ⟨⟨hsort, hstamp⟩, hact⟩
  | some job =>
    by_cases hcond : (job.runpod_job_id.isSome &&
        s.activeJobs.any (fun p => p.1 == jobId)) = true
    · cases o with
      | err msg =>
        have hstate : (cancelJob s jobId (.err msg)).2 = s := by
          simp only [cancelJob, hfind, if_pos hcond]
        rw [hstate]
        exact ⟨⟨hsort, hstamp⟩, hact⟩
      | ok =>
        refine ⟨⟨?_, ?_⟩, ?_⟩
        · rw [show (cancelJob s jobId .ok).2.jobs =
              updateRows s.jobs jobId (fun j => { j with status := .CANCELLED })
            from by simp only [cancelJob, hfind, if_pos hcond]]
          exact updateRows_pairwise
            (f := fun j => { j with status := JobStatus.CANCELLED })
            (fun j => rfl) hsort
        · rw [show (cancelJob s jobId .ok).2.jobs =
              updateRows s.jobs jobId (fun j => { j with status := .CANCELLED })
            from by simp only [cancelJob, hfind, if_pos hcond],
            show (cancelJob s jobId .ok).2.nextSeq = s.nextSeq from by
              simp only [cancelJob, hfind, if_pos hcond]]
          exact updateRows_stamped
            (f := fun j => { j with status := JobStatus.CANCELLED })
            (fun j => rfl) (fun j => rfl) hstamp
        · rw [show (cancelJob s jobId .ok).2.activeJobs =
              mapDelete s.activeJobs jobId from by
            simp only [cancelJob, hfind, if_pos hcond]]
          exact le_trans (List.length_filter_le _ _) hact
    · refine ⟨⟨?_, ?_⟩, ?_⟩
      · rw [show (cancelJob s jobId o).2.jobs =
            updateRows s.jobs jobId (fun j => { j with status := .CANCELLED })
          from by simp only [cancelJob, hfind, if_neg hcond]]
        exact updateRows_pairwise
          (f := fun j => { j with status := JobStatus.CANCELLED })
          (fun j => rfl) hsort
      · rw [show (cancelJob s jobId o).2.jobs =
            updateRows s.jobs jobId (fun j => { j with status := .CANCELLED })
          from by simp only [cancelJob, hfind, if_neg hcond],
          show (cancelJob s jobId o).2.nextSeq = s.nextSeq from by
            simp only [cancelJob, hfind, if_neg hcond]]
        exact updateRows_stamped
          (f := fun j => { j with status := JobStatus.CANCELLED })
          (fun j => rfl) (fun j => rfl) hstamp
      · rw [show (cancelJob s jobId o).2.activeJobs = s.activeJobs from by
          simp only [cancelJob, hfind, if_neg hcond]]
        exact hact

/-- `retryDeadLetter` never changes the state: either the record is absent
(NotFound), or the skip-dedup resubmission reads the camelCase
`jobData.endpointId` — absent on the snapshot — and `createJob` throws on
the undefined bind before inserting anything. -/
theorem retryDeadLetter_state_eq (hashFn : Json → String) (cfg : Config)
    (s : SysState) (dlqId : Nat) :
    (retryDeadLetter hashFn cfg s dlqId).2 = s := by
  cases hfind : s.deadLetters.reverse.find? (fun d => d.id == dlqId) with
  | none => simp [retryDeadLetter, hfind]
  | some dlq =>
    have hsnap : snapshotStringField dlq.job_data "endpointId" = none := by
      simp [snapshotStringField]
    simp only [retryDeadLetter, hfind, hsnap]
    simp only [submitJob]
    split
    · rfl
    · split <;> rfl

theorem retry_WF (hashFn : Json → String) (cfg : Config) (s : SysState)
    (dlqId : Nat) (h : WF cfg s) :
    WF cfg (retryDeadLetter hashFn cfg s dlqId).2 := by
  rw [retryDeadLetter_state_eq]
  exact h

/-- Every state reachable by the public operations is well-formed: rows are
in creation order with unique ids and the active-jobs map never exceeds the
concurrency cap. -/
theorem reach_wf {hashFn : Json → String} {cfg : Config} {s : SysState}
    (h : Reach hashFn cfg s) : WF cfg s := by
  induction h with
  | init =>
    refine ⟨⟨List.Pairwise.nil, ?_⟩, ?_⟩
    · intro j hj
      simp [initState] at hj
    · simp [initState]
  | submit e i skip _ ih => exact submit_WF _ _ _ _ _ _ ih
  | tickStep o r _ ih => exact tick_WF _ _ _ _ ih
  | cancel j o _ ih => exact cancel_WF _ _ _ _ ih
  | retryDLQ d _ ih => exact retry_WF _ _ _ _ ih
  | spend q _ ih => exact ⟨⟨ih.1.1, ih.1.2⟩, ih.2⟩

theorem reachnd_reach {hashFn : Json → String} {cfg : Config} {s : SysState}
    (h : ReachND hashFn cfg s) : Reach hashFn cfg s := by
  induction h with
  | init => exact .init
  | submit e i _ ih => exact .submit e i false ih
  | tickStep o r _ ih => exact .tickStep o r ih
  | cancel j o _ ih => exact .cancel j o ih
  | retryDLQ d _ ih => exact .retryDLQ d ih
  | spend q _ ih => exact .spend q ih

/-- C6 (amended): in every state reachable without a direct deduplication
bypass — submissions with `skipDeduplication: false`, loop ticks, polling,
cancellations, dead-letter retries and external spend changes; only direct
`skipDeduplication: true` submissions are excluded — at most one job row
per distinct `inputHash` is in a non-terminal status.  (`retryDeadLetter`
is covered because its internal skip-dedup resubmission always throws on
the undefined endpoint bind before creating a row.) -/
theorem dedupInvariant_reachND (hashFn : Json → String) (cfg : Config)
    (s : SysState) (h : ReachND hashFn cfg s) : DedupInvariant s := by
  induction h with
  | init => intro hq; simp [initState, hashNonTerminalCount]
  | submit e i _ ih => exact submit_dedupInv _ _ _ _ _ ih
  | tickStep o r hp ih =>
    exact tick_dedupInv _ _ o r (reach_wf (reachnd_reach hp)) ih
  | cancel j o _ ih => exact cancel_dedupInv _ _ _ ih
  | retryDLQ d _ ih =>
    rw [retryDeadLetter_state_eq]
    exact ih
  | spend q _ ih => intro hq; exact ih hq

/-- Witness for the amended C6: the invariant holds at a concrete reachable
state (one submission into the empty store). -/
theorem dedupInvariant_reachND_witness :
    DedupInvariant
      (submitJob (fun _ => "h") cfgA initState (some "ep1") (Json.num 1) false).2 :=
  dedupInvariant_reachND (fun _ => "h") cfgA _
    (ReachND.submit (some "ep1") (Json.num 1) ReachND.init)





/-- Counterexample to C6 as stated: `cexSkip` is reached by two public
`submitJob` calls — the HTTP layer forwards the request body's `options`
verbatim, so `skipDeduplication: true` is available to callers — and it
holds two `PENDING` rows with the same input hash, because the second
submission skipped the duplicate lookup while an identical-input job was
still pending. -/
theorem dedup_invariant_counterexample :
    Reach cexHash cfgA cexSkip ∧ ¬ DedupInvariant cexSkip := by
  constructor
  · exact Reach.submit (some "ep1") (Json.num 1) true
      (Reach.submit (some "ep1") (Json.num 1) false Reach.init)
  · intro hinv
    have h2 := hinv "h"
    revert h2
    decide

/-- C4: on every tick from a reachable state, the fetched batch consists of
`PENDING` rows, in strictly ascending creation order, equal to the oldest
`(maxConcurrentJobs − activeCount)`-prefix of the pending rows; its size
plus the active count never exceeds `maxConcurrentJobs`, and when the
active count meets (hence, by the reachable bound, can never strictly
exceed) the cap, nothing is fetched. -/
theorem tickFetch_policy (hashFn : Json → String) (cfg : Config) (s : SysState)
    (h : Reach hashFn cfg s) :
    (∀ j ∈ tickFetch cfg s, j.status = .PENDING)
    ∧ List.Pairwise (fun a b => a.created_at < b.created_at) (tickFetch cfg s)
    ∧ tickFetch cfg s = (s.jobs.filter (fun j => decide (j.status = .PENDING))).take
        (cfg.maxConcurrentJobs - s.activeJobs.length)
    ∧ (tickFetch cfg s).length + s.activeJobs.length ≤ cfg.maxConcurrentJobs
    ∧ (cfg.maxConcurrentJobs ≤ s.activeJobs.length → tickFetch cfg s = []) := by
  obtain ⟨⟨hsort, hstamp⟩, hact⟩ := reach_wf h
  have heq : tickFetch cfg s =
      (s.jobs.filter (fun j => decide (j.status = .PENDING))).take
        (cfg.maxConcurrentJobs - s.activeJobs.length) := by
    simp only [tickFetch, getPendingJobs,
      sortByCreated_of_sorted (List.Pairwise.filter _ hsort)]
    rw [if_neg (by omega :
      ¬ ((cfg.maxConcurrentJobs : Int) - (s.activeJobs.length : Int) < 0))]
    congr 1
    omega
  refine ⟨?_, tickFetch_pairwise hsort, heq, tickFetch_length_le cfg s hact, ?_⟩
  · intro j hj
    exact (mem_tickFetch hsort hj).1
  · intro hge
    rw [heq]
    have hzero : cfg.maxConcurrentJobs - s.activeJobs.length = 0 := by omega
    rw [hzero, List.take_zero]

/-- Witness for C4 at the initial state (reachable by the empty run). -/
theorem tickFetch_policy_witness :
    (∀ j ∈ tickFetch cfgA initState, j.status = .PENDING)
    ∧ List.Pairwise (fun a b => a.created_at < b.created_at)
        (tickFetch cfgA initState)
    ∧ tickFetch cfgA initState =
        (initState.jobs.filter (fun j => decide (j.status = .PENDING))).take
          (cfgA.maxConcurrentJobs - initState.activeJobs.length)
    ∧ (tickFetch cfgA initState).length + initState.activeJobs.length ≤
        cfgA.maxConcurrentJobs
    ∧ (cfgA.maxConcurrentJobs ≤ initState.activeJobs.length →
        tickFetch cfgA initState = []) :=
  tickFetch_policy (fun _ => "h") cfgA initState Reach.init

theorem submitJob_deadLetters (hashFn : Json → String) (cfg : Config)
    (s : SysState) (e : Option String) (inp : Json) (sk : Bool) :
    (submitJob hashFn cfg s e inp sk).2.deadLetters = s.deadLetters := by
  simp only [submitJob]
  split
  · rfl
  · split
    · rfl
    · cases e <;> rfl

theorem processJob_deadLetters (cfg : Config) (s : SysState) (job : JobRow)
    (o : DispatchOutcome) :
    (processJob cfg s job o).deadLetters = s.deadLetters := by
  cases o with
  | ok rid => rfl
  | err msg =>
    simp only [processJob]
    split <;> rfl

theorem pollOne_deadLetters (s : SysState) (jobId : Nat) (r : PollReport) :
    (pollOne s jobId r).deadLetters = s.deadLetters := by
  cases r <;> rfl

theorem pollActive_deadLetters (s : SysState) (reports : Nat → PollReport) :
    (pollActiveJobs s reports).deadLetters = s.deadLetters := by
  suffices hgen : ∀ (l : List (Nat × ActiveInfo)) (st : SysState),
      (l.foldl (fun st e => pollOne st e.1 (reports e.1)) st).deadLetters =
        st.deadLetters by
    exact hgen s.activeJobs s
  intro l
  induction l with
  | nil => intro st; rfl
  | cons e l ih =>
    intro st
    rw [List.foldl_cons, ih, pollOne_deadLetters]

theorem tick_deadLetters (cfg : Config) (s : SysState)
    (outcomes : Nat → DispatchOutcome) (reports : Nat → PollReport) :
    (tick cfg s outcomes reports).deadLetters = s.deadLetters := by
  simp only [tick]
  rw [pollActive_deadLetters]
  suffices hgen : ∀ (l : List JobRow) (st : SysState),
      (l.foldl (fun st j => processJob cfg st j (outcomes j.id)) st).deadLetters
        = st.deadLetters by
    exact hgen _ s
  intro l
  induction l with
  | nil => intro st; rfl
  | cons j l ih =>
    intro st
    rw [List.foldl_cons, ih, processJob_deadLetters]

theorem cancelJob_deadLetters (s : SysState) (jobId : Nat)
    (o : CancelOutcome) :
    (cancelJob s jobId o).2.deadLetters = s.deadLetters := by
  simp only [cancelJob]
  split
  · rfl
  · split
    · cases o <;> rfl
    · rfl

/-- `addToDeadLetter` always throws before inserting, so the
`dead_letter_queue` table is empty in every reachable state. -/
theorem reach_deadLetters_nil {hashFn : Json → String} {cfg : Config}
    {s : SysState} (h : Reach hashFn cfg s) : s.deadLetters = [] := by
  induction h with
  | init => rfl
  | submit e i sk _ ih => rw [submitJob_deadLetters]; exact ih
  | tickStep o r _ ih => rw [tick_deadLetters]; exact ih
  | cancel j o _ ih => rw [cancelJob_deadLetters]; exact ih
  | retryDLQ d _ ih => rw [retryDeadLetter_state_eq]; exact ih
  | spend q _ ih => exact ih

/-- C7: `retryDeadLetter` never performs the resubmission the claim
describes.  In every reachable state the `dead_letter_queue` table is empty
(`addToDeadLetter` itself throws a TypeError on the undefined
`job.endpointId` bind before inserting), so every `retryDeadLetter` call
fails with NotFound and leaves the state unchanged.  Even on a
hypothetically injected record (`hypDLQState`; the snapshot still carries
the original endpoint `"ep1"` under the column name `endpoint_id`), the
source reads the camelCase `jobData.endpointId`, which is JS `undefined`,
and the skip-dedup resubmission's `createJob` throws the same undefined-bind
TypeError: no new `PENDING` job is created and the original endpoint is not
propagated, against the claim.  A missing id still fails with NotFound. -/
theorem retryDeadLetter_bind_error :
    (∀ (hashFn : Json → String) (cfg : Config) (s : SysState),
        Reach hashFn cfg s →
          s.deadLetters = [] ∧
          ∀ dlqId, retryDeadLetter hashFn cfg s dlqId =
            (.error .dlqNotFound, s))
    ∧ (hypDLQState.deadLetters.map (fun d => d.job_data.endpoint_id)) =
        [some "ep1"]
    ∧ (hypDLQState.deadLetters.map
        (fun d => snapshotStringField d.job_data "endpointId")) = [none]
    ∧ retryDeadLetter cexHash cfgA hypDLQState 1 =
        (.error .bindTypeError, hypDLQState)
    ∧ retryDeadLetter cexHash cfgA hypDLQState 99 =
        (.error .dlqNotFound, hypDLQState) := by
  refine ⟨?_, rfl, rfl, rfl, rfl⟩
  intro hashFn cfg s h
  have hnil := reach_deadLetters_nil h
  refine ⟨hnil, fun dlqId => ?_⟩
  simp [retryDeadLetter, hnil]

theorem retryDeadLetter_bind_error_witness :
    initState.deadLetters = [] ∧
    retryDeadLetter cexHash cfgA initState 1 =
      (.error .dlqNotFound, initState) :=
  ⟨(retryDeadLetter_bind_error.1 cexHash cfgA initState Reach.init).1,
   (retryDeadLetter_bind_error.1 cexHash cfgA initState Reach.init).2 1⟩



theorem lookupField_filter_ne {fs : List (String × Json)} {k k' : String}
    (hne : k' ≠ k) :
    lookupField (fs.filter (fun p => p.1 ≠ k)) k' = lookupField fs k' := by
  induction fs with
  | nil => rfl
  | cons p fs ih =>
    obtain ⟨a, b⟩ := p
    by_cases hak : a = k
    · subst hak
      rw [List.filter_cons_of_neg (by simp)]
      rw [show lookupField ((a, b) :: fs) k' =
        (if a = k' then some b else lookupField fs k') from rfl]
      rw [if_neg (fun he => hne he.symm)]
      exact ih
    · rw [List.filter_cons_of_pos (by simpa using hak)]
      by_cases hak' : a = k'
      · simp [lookupField, hak']
      · simp only [lookupField, if_neg hak']
        exact ih

theorem serializeFields_filter_ne (K : List String) :
    ∀ (keys : List String) (fs : List (String × Json)) (k : String), k ∉ keys →
      serializeFields K keys (fs.filter (fun p => p.1 ≠ k)) =
        serializeFields K keys fs := by
  intro keys
  induction keys with
  | nil =>
    intro fs k _
    simp [serializeFields]
  | cons k1 ks ih =>
    intro fs k hk
    obtain ⟨hk1, hks⟩ : k ≠ k1 ∧ k ∉ ks := by
      simpa [List.mem_cons, not_or] using hk
    rw [serializeFields, serializeFields, lookupField_filter_ne (Ne.symm hk1)]
    cases hl : lookupField fs k1 with
    | none => exact ih fs k hks
    | some v => rw [ih fs k hks]

/-- C10: the replacer passed to `JSON.stringify` in `hashInput` — the
sorted TOP-LEVEL keys of the input — filters object entries at every
nesting depth: removing any entry whose key is not in the replacer list
leaves the serialization unchanged.  Consequently the distinct inputs
`\x7b"a":\x7b"b":1\x7d\x7d` and `\x7b"a":\x7b"b":2\x7d\x7d` normalize to the
same string, get the same truncated hash for every digest function, and
`submitJob` deduplicates the second against the first. -/
theorem hashInput_nested_filter :
    (∀ (K : List String) (fs : List (String × Json)) (k : String), k ∉ K →
      stringifyJson K (.obj (fs.filter (fun p => p.1 ≠ k))) =
        stringifyJson K (.obj fs))
    ∧ inputA ≠ inputB
    ∧ normalizedInput inputA = normalizedInput inputB
    ∧ (∀ digest : String → String,
        hashInput digest inputA = hashInput digest inputB)
    ∧ (∀ digest : String → String,
        submitJob (hashInput digest) cfgA
            (submitJob (hashInput digest) cfgA initState (some "ep1") inputA
              false).2 (some "ep1") inputB false =
          (.ok (.deduplicated
              (newRow initState (some "ep1") (hashInput digest inputA) inputA)),
           (submitJob (hashInput digest) cfgA initState (some "ep1") inputA
              false).2)) := by
  have hnorm : normalizedInput inputA = normalizedInput inputB := by
    simp [normalizedInput, inputA, inputB, jsKeys, sortKeys, insertSorted,
      stringifyJson, serializeFields, serializeItems, lookupField, joinComma]
  have hhash : ∀ digest : String → String,
      hashInput digest inputA = hashInput digest inputB := by
    intro digest
    rw [hashInput, hashInput, hnorm]
  refine ⟨?_, ?_, hnorm, hhash, ?_⟩
  · intro K fs k hk
    simp only [stringifyJson]
    rw [serializeFields_filter_ne K K fs k hk]
  · intro h
    simp [inputA, inputB] at h
  · intro digest
    have hs1 : (submitJob (hashInput digest) cfgA initState (some "ep1") inputA
        false).2.jobs =
        [newRow initState (some "ep1") (hashInput digest inputA) inputA] := rfl
    have hfound : getJobByHash
        (submitJob (hashInput digest) cfgA initState (some "ep1") inputA
          false).2.jobs (hashInput digest inputB) =
        some (newRow initState (some "ep1") (hashInput digest inputA) inputA) := by
      rw [hs1, ← hhash digest]
      show (sortByCreated (dedupFilter
        [newRow initState (some "ep1") (hashInput digest inputA) inputA]
        (hashInput digest inputA))).getLast? = _
      have hfil : dedupFilter
          [newRow initState (some "ep1") (hashInput digest inputA) inputA]
          (hashInput digest inputA) =
          [newRow initState (some "ep1") (hashInput digest inputA) inputA] := by
        simp [dedupFilter, newRow, isDedupStatus]
      rw [hfil]
      rfl
    obtain ⟨S, hS⟩ : ∃ S, (submitJob (hashInput digest) cfgA initState
        (some "ep1") inputA false).2 = S := ⟨_, rfl⟩
    rw [hS] at hfound ⊢
    simp only [submitJob]
    rw [show (if false then none
        else getJobByHash S.jobs (hashInput digest inputB)) =
      getJobByHash S.jobs (hashInput digest inputB) from rfl, hfound]

/-- Witness for C10: the filter equation at a concrete replacer and object,
and the equal hashes at the identity digest. -/
theorem hashInput_nested_filter_witness :
    stringifyJson ["a"] (.obj ([("b", Json.num 1)].filter (fun p => p.1 ≠ "b"))) =
      stringifyJson ["a"] (.obj [("b", Json.num 1)])
    ∧ hashInput (fun s => s) inputA = hashInput (fun s => s) inputB :=
  ⟨hashInput_nested_filter.1 ["a"] [("b", Json.num 1)] "b" (by simp),
   hashInput_nested_filter.2.2.2.1 (fun s => s)⟩

/-- Witness for C9 at `attempts = 3`, `jitter = 500`. -/
theorem backoffDelay_bounds_witness :
    (1000 : ℚ) * 2 ^ 3 ≤ getBackoffDelay 3 500
    ∧ getBackoffDelay 3 500 < 1000 * 2 ^ 3 + 1000
    ∧ (∀ b : Nat, b ≤ 3 →
        min ((1000 : ℚ) * 2 ^ b) 32000 ≤ min ((1000 : ℚ) * 2 ^ 3) 32000)
    ∧ (3 = 5 → (32000 : ℚ) ≤ getBackoffDelay 3 500 ∧ getBackoffDelay 3 500 < 33000) :=
  backoffDelay_bounds 3 500 (by norm_num) (by norm_num) (by norm_num)

end QueueSpec
